import Mathlib

/-!
Newton-Raphson with bisection fallback

Two shallow embeddings of `DoNewtonWithBisectionFallback` from
`multibody/contact_solvers/newton_with_bisection.h`, with the same control
flow and different arithmetic.

* The exact reading, directly in `NewtonWithBisection`: every `double` is an
  element of an arbitrary linearly ordered field `α` (evaluated at `ℚ`,
  instantiated at `ℝ` where a statement speaks of continuous functions), and
  the `int` counter is an unbounded `Int`.  It says what the algorithm does
  when no operation rounds, overflows or underflows, and when
  `max_iterations` is below the largest `int`.
* The machine reading, in `NewtonWithBisection.Binary64`: every `double` is an
  IEEE 754 binary64 value (`F64`: NaN, signed infinities, signed zeros,
  subnormals, round to nearest even), comparisons are the IEEE ones, and the
  `int` counter wraps modulo `2 ^ 32`.  The loop takes a fuel argument, since
  with a wrapping counter it need not end.

In both, the evaluator is a pure function returning the value and the
derivative, and every call of it is recorded, in order, in the `evals` field
of the run.
-/

namespace NewtonWithBisection

/-- The two ways a call can fail: `DRAKE_THROW_UNLESS` (precondition) and the
`std::runtime_error` thrown after the loop, which carries `|minus_dx|` and
`|x_upper - x_lower|`. -/
inductive Failure (α : Type) where
  | precondition : Failure α
  | didNotConverge (step width : α) : Failure α

/-- What one call does: its result (a pair `(root, count)` or a failure) and
the points at which the evaluator was called, in call order. -/
structure Run (α : Type) where
  result : Except (Failure α) (α × Int)
  evals : List α

/-- The local variables of the routine that are live across loop iterations. -/
structure LoopState (α : Type) where
  x_lower : α
  x_upper : α
  f_lower : α
  f_upper : α
  root : α
  minus_dx : α
  f : α
  df : α

/-- How one pass through the loop body ends: the tolerance return, the
exact-zero return after the evaluation, or the bracket update. -/
inductive IterResult (α : Type) where
  | converged (root : α) : IterResult α
  | exactZero (root : α) : IterResult α
  | next (s : LoopState α) : IterResult α

section Algorithm

variable {α : Type} [LinearOrderedField α]

/-- The lambda `do_bisection`: returns the pair `(root, -dx)`. -/
def do_bisection (x_lower x_upper : α) : α × α :=
  let dx_negative := (1 / 2) * (x_lower - x_upper)
  let x := x_lower - dx_negative
  (x, dx_negative)

/-- The lambda `do_newton`: returns the pair `(root, -dx)`. -/
def do_newton (f df root : α) : α × α :=
  let dx_negative := f / df
  let x := root - dx_negative
  (x, dx_negative)

/-- The test `2.0 * abs(f) > abs(minus_dx * df)`. -/
def newton_is_slow (s : LoopState α) : Bool :=
  decide (2 * |s.f| > |s.minus_dx * s.df|)

/-- The test `root < x_lower || root > x_upper` on a candidate root. -/
def outside_bracket (s : LoopState α) (root : α) : Bool :=
  decide (root < s.x_lower ∨ root > s.x_upper)

/-- Whether the iteration starting in `s` ends up taking the bisection step,
either because Newton is slow or because the Newton candidate leaves the
bracket. -/
def takesBisection (s : LoopState α) : Bool :=
  newton_is_slow s || outside_bracket s (do_newton s.f s.df s.root).1

/-- The step selection of the loop body: the new `(root, minus_dx)`. -/
def takeStep (s : LoopState α) : α × α :=
  if newton_is_slow s then do_bisection s.x_lower s.x_upper
  else
    let c := do_newton s.f s.df s.root
    if outside_bracket s c.1 then do_bisection s.x_lower s.x_upper
    else c

/-- The bracket update at the end of the loop body, for the new iterate
`root`, step `minus_dx` and the evaluation `(f, df)` at `root`. -/
def updateBracket (s : LoopState α) (root minus_dx f df : α) : LoopState α :=
  if f * s.f_upper < 0 then
    { s with x_lower := root, f_lower := f, root := root, minus_dx := minus_dx, f := f, df := df }
  else
    { s with x_upper := root, f_upper := f, root := root, minus_dx := minus_dx, f := f, df := df }

/-- One pass through the loop body. -/
def iterate (function : α → α × α) (abs_tolerance : α) (s : LoopState α) : IterResult α :=
  let step := takeStep s
  if |step.2| < abs_tolerance then .converged step.1
  else
    let e := function step.1
    if e.1 = 0 then .exactZero step.1
    else .next (updateBracket s step.1 step.2 e.1 e.2)

/-- The `for` loop.  `remaining` is the number of values that
`num_evaluations` still takes up to `max_iterations`; when none is left the
loop is exited and the routine throws. -/
def loop (function : α → α × α) (abs_tolerance : α) :
    Nat → Int → LoopState α → List α → Run α
  | 0, _, s, evals =>
      ⟨.error (.didNotConverge |s.minus_dx| |s.x_upper - s.x_lower|), evals⟩
  | remaining + 1, num_evaluations, s, evals =>
      match iterate function abs_tolerance s with
      | .converged root => ⟨.ok (root, num_evaluations), evals⟩
      | .exactZero root => ⟨.ok (root, num_evaluations), evals ++ [root]⟩
      | .next s1 =>
          loop function abs_tolerance remaining (num_evaluations + 1) s1 (evals ++ [s1.root])

/-- The loop state built before the loop is entered. -/
def initState (function : α → α × α) (x_lower x_upper x_guess : α) : LoopState α :=
  { x_lower := x_lower, x_upper := x_upper,
    f_lower := (function x_lower).1, f_upper := (function x_upper).1,
    root := x_guess, minus_dx := x_lower - x_upper,
    f := (function x_guess).1, df := (function x_guess).2 }

/-- The routine `DoNewtonWithBisectionFallback`. -/
def DoNewtonWithBisectionFallback (function : α → α × α)
    (x_lower x_upper x_guess abs_tolerance : α) (max_iterations : Int) : Run α :=
  if ¬ (x_lower ≤ x_guess ∧ x_guess ≤ x_upper) then ⟨.error .precondition, []⟩
  else if ¬ (abs_tolerance > 0) then ⟨.error .precondition, []⟩
  else if ¬ (max_iterations > 0) then ⟨.error .precondition, []⟩
  else if (function x_lower).1 = 0 then ⟨.ok (x_lower, 1), [x_lower]⟩
  else if (function x_upper).1 = 0 then ⟨.ok (x_upper, 2), [x_lower, x_upper]⟩
  else if ¬ ((function x_lower).1 * (function x_upper).1 < 0) then
    ⟨.error .precondition, [x_lower, x_upper]⟩
  else if (function x_guess).1 = 0 then ⟨.ok (x_guess, 3), [x_lower, x_upper, x_guess]⟩
  else
    loop function abs_tolerance (max_iterations - 2).toNat 3
      (initState function x_lower x_upper x_guess) [x_lower, x_upper, x_guess]

/-- The loop state after `k` completed iterations (bracket updates) started
in state `s`, if the loop body gets that far without returning. -/
def stateAfter (function : α → α × α) (abs_tolerance : α) :
    Nat → LoopState α → Option (LoopState α)
  | 0, s => some s
  | k + 1, s =>
      match iterate function abs_tolerance s with
      | .next s1 => stateAfter function abs_tolerance k s1
      | _ => none

/-- Strictly opposite sign: one value is negative and the other positive. -/
def OppositeSign (a b : α) : Prop := (a < 0 ∧ 0 < b) ∨ (0 < a ∧ b < 0)

/-- Same sign, both values nonzero. -/
def SameSign (a b : α) : Prop := (a < 0 ∧ b < 0) ∨ (0 < a ∧ 0 < b)

/-- The facts that hold of the loop variables whenever the loop condition is
tested, for a call with evaluator `function` and bracket `[x_lower, x_upper]`:
the bracket is nested in the original one and contains the iterate, the cached
values are the values of the evaluator, and the endpoint values have strictly
opposite sign. -/
structure LoopInv (function : α → α × α) (x_lower x_upper : α) (s : LoopState α) : Prop where
  lower_le : x_lower ≤ s.x_lower
  le_root : s.x_lower ≤ s.root
  root_le : s.root ≤ s.x_upper
  le_upper : s.x_upper ≤ x_upper
  f_lower_eq : s.f_lower = (function s.x_lower).1
  f_upper_eq : s.f_upper = (function s.x_upper).1
  f_eq : s.f = (function s.root).1
  df_eq : s.df = (function s.root).2
  sign : OppositeSign s.f_lower s.f_upper

end Algorithm

/-! ## IEEE 754 binary64 arithmetic -/

/-- A binary64 value: NaN, a signed infinity, or the finite value
`(-1) ^ neg * m * 2 ^ (e - 1074)`.  The values produced by the operations below
are normalised: `m < 2 ^ 53`, `e ≤ 2045`, and `2 ^ 52 ≤ m` unless `e = 0`. -/
inductive F64 where
  | nan : F64
  | inf (neg : Bool) : F64
  | fin (neg : Bool) (m : Nat) (e : Nat) : F64
deriving DecidableEq

namespace F64

/-- The quotient `n / d` rounded to the nearest integer, ties to even. -/
def roundHalfEven (n d : Nat) : Nat :=
  let q := n / d
  let r := n % d
  if 2 * r < d then q else if d < 2 * r then q + 1 else if q % 2 = 0 then q else q + 1

/-- Position of the leading bit of `n`, for `0 < n < 2 ^ 8192`. -/
def ilog2 (n : Nat) : Nat :=
  ([4096, 2048, 1024, 512, 256, 128, 64, 32, 16, 8, 4, 2, 1].foldl
    (fun (p : Nat × Nat) (k : Nat) => if 2 ^ k ≤ p.2 then (p.1 + k, p.2 / 2 ^ k) else p)
    (0, n)).1

/-- Round to nearest even: the binary64 value nearest to the real number
`(-1) ^ neg * (n / d) * 2 ^ (-1074)`, with overflow to infinity and gradual
underflow to a signed zero. -/
def round (neg : Bool) (n d : Nat) : F64 :=
  let q0 := n / d
  let e := if q0 < 2 ^ 53 then 0 else ilog2 q0 - 52
  let m := roundHalfEven n (d * 2 ^ e)
  if m = 2 ^ 53 then (if 2045 < e + 1 then .inf neg else .fin neg (2 ^ 52) (e + 1))
  else if 2045 < e then .inf neg else .fin neg m e

/-- Unary minus. -/
def neg : F64 → F64
  | nan => nan
  | inf s => inf (!s)
  | fin s m e => fin (!s) m e

/-- The function `std::abs`. -/
def abs : F64 → F64
  | nan => nan
  | inf _ => inf false
  | fin _ m e => fin false m e

/-- Addition: the exact sum, rounded; an exact zero sum of opposite signs is
`+0`. -/
def add : F64 → F64 → F64
  | nan, _ => nan
  | _, nan => nan
  | inf s, inf t => if s = t then inf s else nan
  | inf s, fin _ _ _ => inf s
  | fin _ _ _, inf t => inf t
  | fin s m e, fin t k g =>
      let c := min e g
      let a := m * 2 ^ (e - c)
      let b := k * 2 ^ (g - c)
      if s = t then round s ((a + b) * 2 ^ c) 1
      else if b < a then round s ((a - b) * 2 ^ c) 1
      else if a < b then round t ((b - a) * 2 ^ c) 1
      else fin false 0 0

/-- Subtraction. -/
def sub (a b : F64) : F64 := add a (neg b)

/-- Multiplication: the exact product, rounded; `inf * 0` is NaN. -/
def mul : F64 → F64 → F64
  | nan, _ => nan
  | _, nan => nan
  | inf s, inf t => inf (xor s t)
  | inf s, fin t k _ => if k = 0 then nan else inf (xor s t)
  | fin s m _, inf t => if m = 0 then nan else inf (xor s t)
  | fin s m e, fin t k g => round (xor s t) (m * k * 2 ^ (e + g)) (2 ^ 1074)

/-- Division: the exact quotient, rounded; `x / 0` is a signed infinity for
`x ≠ 0`, and `0 / 0` and `inf / inf` are NaN. -/
def div : F64 → F64 → F64
  | nan, _ => nan
  | _, nan => nan
  | inf _, inf _ => nan
  | inf s, fin t _ _ => inf (xor s t)
  | fin s _ _, inf t => fin (xor s t) 0 0
  | fin s m e, fin t k g =>
      if k = 0 then (if m = 0 then nan else inf (xor s t))
      else round (xor s t) (m * 2 ^ e * 2 ^ 1074) (k * 2 ^ g)

/-- The real value in units of `2 ^ (-1074)`, an integer for every finite
value; the infinities get `± 2 ^ 2100`, beyond every finite value, and NaN has
none. -/
def key : F64 → Option Int
  | nan => none
  | inf s => some (if s then -((2 ^ 2100 : Nat) : Int) else ((2 ^ 2100 : Nat) : Int))
  | fin s m e => some (if s then -((m * 2 ^ e : Nat) : Int) else ((m * 2 ^ e : Nat) : Int))

/-- The comparison `a < b`: false when either side is NaN. -/
def lt (a b : F64) : Bool :=
  match key a, key b with
  | some x, some y => decide (x < y)
  | _, _ => false

/-- The comparison `a <= b`: false when either side is NaN. -/
def le (a b : F64) : Bool :=
  match key a, key b with
  | some x, some y => decide (x ≤ y)
  | _, _ => false

/-- The comparison `a == b`: false when either side is NaN, true for `+0` and
`-0`. -/
def eq (a b : F64) : Bool :=
  match key a, key b with
  | some x, some y => decide (x = y)
  | _, _ => false

/-- Exact test on finite values: the real distance `|a - b|` is below `c`. -/
def distBelow (a b c : F64) : Bool :=
  match key a, key b, key c with
  | some x, some y, some z => decide (x - y < z ∧ y - x < z)
  | _, _, _ => false

/-- Exact test on finite values: `x` is the real midpoint `(a + b) / 2`. -/
def isMidpoint (x a b : F64) : Bool :=
  match key x, key a, key b with
  | some u, some v, some w => decide (2 * u = v + w)
  | _, _, _ => false

/-- Exact test on finite values: `|a| ≤ |b| / 2` as real numbers. -/
def atMostHalf (a b : F64) : Bool :=
  match key (abs a), key (abs b) with
  | some u, some v => decide (2 * u ≤ v)
  | _, _ => false

/-- The binary64 value nearest to the natural number `n`. -/
def ofNat (n : Nat) : F64 := round false (n * 2 ^ 1074) 1

/-- The binary64 value nearest to the quotient `n / d`, as a decimal literal
denotes it. -/
def ofQuotient (n d : Nat) : F64 := round false (n * 2 ^ 1074) d

/-- The power `2 ^ k`, for `-1022 ≤ k ≤ 1023`. -/
def pow2 (k : Int) : F64 := fin false (2 ^ 52) (k - 52 + 1074).toNat

end F64

/-! ## The routine on binary64 values -/

namespace Binary64

open F64

/-- The literal `0`. -/
def zero : F64 := fin false 0 0

/-- The literal `0.5`. -/
def half : F64 := ofQuotient 1 2

/-- The literal `2.0`. -/
def two : F64 := ofNat 2

/-- The lambda `do_bisection`: returns the pair `(root, -dx)`. -/
def do_bisection (x_lower x_upper : F64) : F64 × F64 :=
  let dx_negative := mul half (sub x_lower x_upper)
  let x := sub x_lower dx_negative
  (x, dx_negative)

/-- The lambda `do_newton`: returns the pair `(root, -dx)`. -/
def do_newton (f df root : F64) : F64 × F64 :=
  let dx_negative := div f df
  let x := sub root dx_negative
  (x, dx_negative)

/-- The test `2.0 * abs(f) > abs(minus_dx * df)`. -/
def newton_is_slow (s : LoopState F64) : Bool :=
  lt (abs (mul s.minus_dx s.df)) (mul two (abs s.f))

/-- The test `root < x_lower || root > x_upper` on a candidate root. -/
def outside_bracket (s : LoopState F64) (root : F64) : Bool :=
  lt root s.x_lower || lt s.x_upper root

/-- Whether the iteration starting in `s` ends up taking the bisection step. -/
def takesBisection (s : LoopState F64) : Bool :=
  newton_is_slow s || outside_bracket s (do_newton s.f s.df s.root).1

/-- The step selection of the loop body: the new `(root, minus_dx)`. -/
def takeStep (s : LoopState F64) : F64 × F64 :=
  if newton_is_slow s then do_bisection s.x_lower s.x_upper
  else
    let c := do_newton s.f s.df s.root
    if outside_bracket s c.1 then do_bisection s.x_lower s.x_upper
    else c

/-- The bracket update at the end of the loop body. -/
def updateBracket (s : LoopState F64) (root minus_dx f df : F64) : LoopState F64 :=
  if lt (mul f s.f_upper) zero then
    { s with x_lower := root, f_lower := f, root := root, minus_dx := minus_dx, f := f, df := df }
  else
    { s with x_upper := root, f_upper := f, root := root, minus_dx := minus_dx, f := f, df := df }

/-- One pass through the loop body. -/
def iterate (function : F64 → F64 × F64) (abs_tolerance : F64) (s : LoopState F64) :
    IterResult F64 :=
  let step := takeStep s
  if lt (abs step.2) abs_tolerance then .converged step.1
  else
    let e := function step.1
    if eq e.1 zero then .exactZero step.1
    else .next (updateBracket s step.1 step.2 e.1 e.2)

/-- The increment `++num_evaluations` of an `int`, wrapping modulo `2 ^ 32`
(`2147483648 = 2 ^ 31`, `4294967296 = 2 ^ 32`). -/
def wrapIncr (n : Int) : Int := (n + 1 + 2147483648) % 4294967296 - 2147483648

/-- The `for` loop, run for at most `fuel` tests of its condition; `none`
means that the loop is still running when the fuel is used up. -/
def loop (function : F64 → F64 × F64) (abs_tolerance : F64) (max_iterations : Int) :
    Nat → Int → LoopState F64 → List F64 → Option (Run F64)
  | 0, _, _, _ => none
  | fuel + 1, num_evaluations, s, evals =>
      if num_evaluations ≤ max_iterations then
        match iterate function abs_tolerance s with
        | .converged root => some ⟨.ok (root, num_evaluations), evals⟩
        | .exactZero root => some ⟨.ok (root, num_evaluations), evals ++ [root]⟩
        | .next s1 =>
            loop function abs_tolerance max_iterations fuel (wrapIncr num_evaluations) s1
              (evals ++ [s1.root])
      else
        some ⟨.error (.didNotConverge (abs s.minus_dx) (abs (sub s.x_upper s.x_lower))), evals⟩

/-- The loop state built before the loop is entered. -/
def initState (function : F64 → F64 × F64) (x_lower x_upper x_guess : F64) : LoopState F64 :=
  { x_lower := x_lower, x_upper := x_upper,
    f_lower := (function x_lower).1, f_upper := (function x_upper).1,
    root := x_guess, minus_dx := sub x_lower x_upper,
    f := (function x_guess).1, df := (function x_guess).2 }

/-- The routine `DoNewtonWithBisectionFallback` on binary64 values. -/
def DoNewtonWithBisectionFallback (fuel : Nat) (function : F64 → F64 × F64)
    (x_lower x_upper x_guess abs_tolerance : F64) (max_iterations : Int) : Option (Run F64) :=
  if ¬ (le x_lower x_guess && le x_guess x_upper) then some ⟨.error .precondition, []⟩
  else if ¬ (lt zero abs_tolerance) then some ⟨.error .precondition, []⟩
  else if ¬ (max_iterations > 0) then some ⟨.error .precondition, []⟩
  else if eq (function x_lower).1 zero then some ⟨.ok (x_lower, 1), [x_lower]⟩
  else if eq (function x_upper).1 zero then some ⟨.ok (x_upper, 2), [x_lower, x_upper]⟩
  else if ¬ (lt (mul (function x_lower).1 (function x_upper).1) zero) then
    some ⟨.error .precondition, [x_lower, x_upper]⟩
  else if eq (function x_guess).1 zero then
    some ⟨.ok (x_guess, 3), [x_lower, x_upper, x_guess]⟩
  else
    loop function abs_tolerance max_iterations fuel 3
      (initState function x_lower x_upper x_guess) [x_lower, x_upper, x_guess]

/-- The loop state after `k` completed iterations started in state `s`, if the
loop body gets that far without returning. -/
def stateAfter (function : F64 → F64 × F64) (abs_tolerance : F64) :
    Nat → LoopState F64 → Option (LoopState F64)
  | 0, s => some s
  | k + 1, s =>
      match iterate function abs_tolerance s with
      | .next s1 => stateAfter function abs_tolerance k s1
      | _ => none

/-! ### Evaluators used as inputs -/

/-- The evaluator `x ↦ (2⁻⁶⁰⁰ (x - 1), 2⁻⁶⁰⁰)`. -/
def tinyLine (x : F64) : F64 × F64 :=
  (mul (pow2 (-600)) (sub x (ofNat 1)), pow2 (-600))

/-- The evaluator with value `-1` at `0` and `2⁻⁶⁰⁰ (x - 3)` elsewhere, and
derivative `0`. -/
def stepAtZero (x : F64) : F64 × F64 :=
  (if eq x zero then neg (ofNat 1) else mul (pow2 (-600)) (sub x (ofNat 3)), zero)

/-- The evaluator `x ↦ ((x - 1) + (x - (1 + 2⁻⁵²)), 2)`, a line through the
middle of the two adjacent values `1` and `1 + 2⁻⁵²`. -/
def adjacentLine (x : F64) : F64 × F64 :=
  (add (sub x (ofNat 1)) (sub x (add (ofNat 1) (pow2 (-52)))), ofNat 2)

/-- The evaluator with value `-1` below `1` and `1 / x` from `1` on, and
derivative `0`. -/
def recipAboveOne (x : F64) : F64 × F64 :=
  (if lt x (ofNat 1) then neg (ofNat 1) else div (ofNat 1) x, zero)

/-- The evaluator with value `-1` below `1` and `1` from `1` on, and
derivative `0`. -/
def signAtOne (x : F64) : F64 × F64 :=
  (if lt x (ofNat 1) then neg (ofNat 1) else ofNat 1, zero)

/-- The evaluator `x ↦ (x * x * x - 1, 3 * x * x)`. -/
def cubeMinusOne (x : F64) : F64 × F64 :=
  (sub (mul (mul x x) x) (ofNat 1), mul (mul (ofNat 3) x) x)

/-- The evaluator `x ↦ (x - (1 - 2⁻⁵²), 3)`. -/
def offByUlp (x : F64) : F64 × F64 :=
  (sub x (sub (ofNat 1) (pow2 (-52))), ofNat 3)

/-- The evaluator with value `-1` and derivative `-2⁵³` up to `1`, and value
`1` and derivative `2⁵³` above. -/
def steepStep (x : F64) : F64 × F64 :=
  if le x (ofNat 1) then (neg (ofNat 1), neg (pow2 53)) else (ofNat 1, pow2 53)

/-- The evaluator `x ↦ (1e308 * (x + 0.7), 1e308)`. -/
def hugeLine (x : F64) : F64 × F64 :=
  (mul (ofNat (10 ^ 308)) (add x (ofQuotient 7 10)), ofNat (10 ^ 308))

/-- The literal `1e308`. -/
def big : F64 := ofNat (10 ^ 308)

/-- The value `1 + 2⁻⁵²`, the binary64 value next above `1`. -/
def onePlusUlp : F64 := add (ofNat 1) (pow2 (-52))

/-- The loop state reached on `adjacentLine` over `[1, 1 + 2⁻⁵²]` after the
first iteration: the bracket is still `[1, 1 + 2⁻⁵²]`, the iterate is `1` and
the recorded step is `-2⁻⁵³`. -/
def stalled : LoopState F64 :=
  { x_lower := ofNat 1, x_upper := onePlusUlp,
    f_lower := neg (pow2 (-52)), f_upper := pow2 (-52),
    root := ofNat 1, minus_dx := neg (pow2 (-53)),
    f := neg (pow2 (-52)), df := ofNat 2 }

end Binary64

/-! ## Basic facts about the exact reading -/

section Lemmas

variable {α : Type} [LinearOrderedField α]

theorem oppositeSign_iff_mul_neg (a b : α) : OppositeSign a b ↔ a * b < 0 := by
  unfold OppositeSign
  rw [mul_neg_iff]
  tauto

theorem sameSign_iff_mul_pos (a b : α) : SameSign a b ↔ 0 < a * b := by
  unfold SameSign
  rw [mul_pos_iff]
  tauto

theorem do_bisection_fst (a b : α) : (do_bisection a b).1 = (a + b) / 2 := by
  simp only [do_bisection]; ring

theorem do_bisection_snd (a b : α) : (do_bisection a b).2 = (a - b) / 2 := by
  simp only [do_bisection]; ring

theorem takeStep_of_bisection (s : LoopState α) (h : takesBisection s = true) :
    takeStep s = do_bisection s.x_lower s.x_upper := by
  unfold takesBisection at h
  unfold takeStep
  by_cases h1 : newton_is_slow s = true
  · simp [h1]
  · simp only [h1, Bool.false_or] at h
    simp [h1, h]

theorem takeStep_of_newton (s : LoopState α) (h : takesBisection s = false) :
    takeStep s = do_newton s.f s.df s.root := by
  unfold takesBisection at h
  rw [Bool.or_eq_false_iff] at h
  unfold takeStep
  simp [h.1, h.2]

/-- The new iterate lies in the current bracket. -/
theorem takeStep_mem (s : LoopState α) (h : s.x_lower ≤ s.x_upper) :
    s.x_lower ≤ (takeStep s).1 ∧ (takeStep s).1 ≤ s.x_upper := by
  cases hb : takesBisection s
  · rw [takeStep_of_newton s hb]
    unfold takesBisection at hb
    rw [Bool.or_eq_false_iff] at hb
    have h2 := hb.2
    simp only [outside_bracket, decide_eq_false_iff_not, not_or, not_lt] at h2
    exact ⟨h2.1, h2.2⟩
  · rw [takeStep_of_bisection s hb, do_bisection_fst]
    constructor <;> linarith

theorem iterate_next (function : α → α × α) (abs_tolerance : α) (s t : LoopState α)
    (h : iterate function abs_tolerance s = .next t) :
    abs_tolerance ≤ |(takeStep s).2| ∧ (function (takeStep s).1).1 ≠ 0 ∧
      t = updateBracket s (takeStep s).1 (takeStep s).2
        (function (takeStep s).1).1 (function (takeStep s).1).2 := by
  unfold iterate at h
  simp only at h
  split_ifs at h with h1 h2
  refine ⟨not_lt.mp h1, h2, ?_⟩
  injection h with h
  exact h.symm

theorem iterate_converged (function : α → α × α) (abs_tolerance : α) (s : LoopState α) (x : α)
    (h : iterate function abs_tolerance s = .converged x) :
    |(takeStep s).2| < abs_tolerance ∧ x = (takeStep s).1 := by
  unfold iterate at h
  simp only at h
  split_ifs at h with h1 h2
  injection h with h
  exact ⟨h1, h.symm⟩

theorem iterate_exactZero (function : α → α × α) (abs_tolerance : α) (s : LoopState α) (x : α)
    (h : iterate function abs_tolerance s = .exactZero x) :
    (function x).1 = 0 ∧ x = (takeStep s).1 := by
  unfold iterate at h
  simp only at h
  split_ifs at h with h1 h2
  injection h with h
  subst h
  exact ⟨h2, rfl⟩

/-- The bracket update keeps the bracket nested and the iterate inside it,
whatever the evaluator returns. -/
theorem iterate_next_bracket (function : α → α × α) (abs_tolerance x_lower x_upper : α)
    (s t : LoopState α)
    (hinv : x_lower ≤ s.x_lower ∧ s.x_lower ≤ s.root ∧ s.root ≤ s.x_upper ∧ s.x_upper ≤ x_upper)
    (h : iterate function abs_tolerance s = .next t) :
    x_lower ≤ t.x_lower ∧ t.x_lower ≤ t.root ∧ t.root ≤ t.x_upper ∧ t.x_upper ≤ x_upper := by
  obtain ⟨_, _, ht⟩ := iterate_next function abs_tolerance s t h
  have hm := takeStep_mem s (hinv.2.1.trans hinv.2.2.1)
  subst ht
  unfold updateBracket
  split_ifs with hc
  · exact ⟨hinv.1.trans hm.1, le_refl _, hm.2, hinv.2.2.2⟩
  · exact ⟨hinv.1, hm.1, le_refl _, hm.2.trans hinv.2.2.2⟩

theorem stateAfter_bracket (function : α → α × α) (abs_tolerance x_lower x_upper : α) (k : Nat) :
    ∀ s t : LoopState α,
      (x_lower ≤ s.x_lower ∧ s.x_lower ≤ s.root ∧ s.root ≤ s.x_upper ∧ s.x_upper ≤ x_upper) →
      stateAfter function abs_tolerance k s = some t →
      x_lower ≤ t.x_lower ∧ t.x_lower ≤ t.root ∧ t.root ≤ t.x_upper ∧ t.x_upper ≤ x_upper := by
  induction k with
  | zero =>
    intro s t hinv h
    simp only [stateAfter, Option.some.injEq] at h
    exact h ▸ hinv
  | succ k ih =>
    intro s t hinv h
    simp only [stateAfter] at h
    cases hi : iterate function abs_tolerance s with
    | converged x => simp [hi] at h
    | exactZero x => simp [hi] at h
    | next s1 =>
      simp only [hi] at h
      exact ih s1 t (iterate_next_bracket function abs_tolerance x_lower x_upper s s1 hinv hi) h

/-- The step recorded in `minus_dx` bounds the distance between the new
iterate and the previous one. -/
theorem takeStep_dist (s : LoopState α) (h1 : s.x_lower ≤ s.root) (h2 : s.root ≤ s.x_upper) :
    |(takeStep s).1 - s.root| ≤ |(takeStep s).2| := by
  cases hb : takesBisection s
  · rw [takeStep_of_newton s hb]
    simp only [do_newton, sub_sub_cancel_left, abs_neg, le_refl]
  · rw [takeStep_of_bisection s hb, do_bisection_fst, do_bisection_snd]
    rw [abs_le]
    have h3 : |(s.x_lower - s.x_upper) / 2| = (s.x_upper - s.x_lower) / 2 := by
      rw [abs_of_nonpos (by linarith)]; ring
    rw [h3]
    constructor <;> linarith

/-- The bracket update keeps the loop invariant. -/
theorem iterate_next_inv (function : α → α × α) (abs_tolerance x_lower x_upper : α)
    (s t : LoopState α) (hinv : LoopInv function x_lower x_upper s)
    (h : iterate function abs_tolerance s = .next t) : LoopInv function x_lower x_upper t := by
  obtain ⟨_, hne, ht⟩ := iterate_next function abs_tolerance s t h
  have hm := takeStep_mem s (hinv.le_root.trans hinv.root_le)
  have hsign := (oppositeSign_iff_mul_neg _ _).mp hinv.sign
  have hfu : s.f_upper ≠ 0 := fun h0 => by rw [h0, mul_zero] at hsign; exact lt_irrefl _ hsign
  subst ht
  unfold updateBracket
  split_ifs with hc
  · exact ⟨hinv.lower_le.trans hm.1, le_refl _, hm.2, hinv.le_upper, rfl, hinv.f_upper_eq, rfl,
      rfl, (oppositeSign_iff_mul_neg _ _).mpr hc⟩
  · refine ⟨hinv.lower_le, hm.1, le_refl _, hm.2.trans hinv.le_upper, hinv.f_lower_eq, rfl, rfl,
      rfl, ?_⟩
    have hpos : 0 < (function (takeStep s).1).1 * s.f_upper :=
      lt_of_le_of_ne (not_lt.mp hc) (Ne.symm (mul_ne_zero hne hfu))
    rw [oppositeSign_iff_mul_neg]
    show s.f_lower * (function (takeStep s).1).1 < 0
    by_contra hcon
    have h1 : 0 ≤ s.f_lower * (function (takeStep s).1).1 := not_lt.mp hcon
    have h2 : 0 ≤ (s.f_lower * (function (takeStep s).1).1) *
        ((function (takeStep s).1).1 * s.f_upper) := mul_nonneg h1 hpos.le
    have h3 : (s.f_lower * (function (takeStep s).1).1) *
        ((function (takeStep s).1).1 * s.f_upper) =
        (s.f_lower * s.f_upper) * ((function (takeStep s).1).1) ^ 2 := by ring
    have h4 : 0 < ((function (takeStep s).1).1) ^ 2 := by positivity
    have h5 := mul_neg_of_neg_of_pos hsign h4
    linarith

/-- The state built before the loop satisfies the loop invariant. -/
theorem initState_inv (function : α → α × α) (x_lower x_upper x_guess : α)
    (hb : x_lower ≤ x_guess ∧ x_guess ≤ x_upper)
    (hs : OppositeSign (function x_lower).1 (function x_upper).1) :
    LoopInv function x_lower x_upper (initState function x_lower x_upper x_guess) :=
  ⟨le_refl _, hb.1, hb.2, le_refl _, rfl, rfl, rfl, rfl, hs⟩

theorem stateAfter_inv (function : α → α × α) (abs_tolerance x_lower x_upper : α) (k : Nat) :
    ∀ s t : LoopState α, LoopInv function x_lower x_upper s →
      stateAfter function abs_tolerance k s = some t → LoopInv function x_lower x_upper t := by
  induction k with
  | zero =>
    intro s t hinv h
    simp only [stateAfter, Option.some.injEq] at h
    exact h ▸ hinv
  | succ k ih =>
    intro s t hinv h
    simp only [stateAfter] at h
    cases hi : iterate function abs_tolerance s with
    | converged x => simp [hi] at h
    | exactZero x => simp [hi] at h
    | next s1 =>
      simp only [hi] at h
      exact ih s1 t (iterate_next_inv function abs_tolerance x_lower x_upper s s1 hinv hi) h

/-- How a successful run of the loop ended: after `k` completed iterations
the loop body returned, either by the tolerance test (no further evaluation)
or by the exact-zero test (one further evaluation). -/
theorem loop_ok_cases (function : α → α × α) (abs_tolerance : α) (x : α) (m : Int)
    (remaining : Nat) :
    ∀ (num_evaluations : Int) (s : LoopState α) (evals : List α),
      (loop function abs_tolerance remaining num_evaluations s evals).result = .ok (x, m) →
      ∃ (k : Nat) (t : LoopState α), k < remaining ∧
        stateAfter function abs_tolerance k s = some t ∧ m = num_evaluations + k ∧
        ((iterate function abs_tolerance t = .converged x ∧
            (loop function abs_tolerance remaining num_evaluations s evals).evals.length
              = evals.length + k) ∨
         (iterate function abs_tolerance t = .exactZero x ∧
            (loop function abs_tolerance remaining num_evaluations s evals).evals.length
              = evals.length + k + 1)) := by
  induction remaining with
  | zero =>
    intro n s evals h
    simp [loop] at h
  | succ r ih =>
    intro n s evals h
    cases hi : iterate function abs_tolerance s with
    | converged y =>
      simp only [loop, hi, Except.ok.injEq, Prod.mk.injEq] at h
      refine ⟨0, s, Nat.succ_pos r, rfl, by simp [h.2], Or.inl ⟨?_, ?_⟩⟩
      · rw [hi, h.1]
      · simp [loop, hi]
    | exactZero y =>
      simp only [loop, hi, Except.ok.injEq, Prod.mk.injEq] at h
      refine ⟨0, s, Nat.succ_pos r, rfl, by simp [h.2], Or.inr ⟨?_, ?_⟩⟩
      · rw [hi, h.1]
      · simp [loop, hi]
    | next s1 =>
      simp only [loop, hi] at h
      obtain ⟨k, t, hk, hst, hm, hcases⟩ := ih (n + 1) s1 (evals ++ [s1.root]) h
      refine ⟨k + 1, t, Nat.succ_lt_succ hk, ?_, ?_, ?_⟩
      · simp only [stateAfter, hi]
        exact hst
      · rw [hm]; push_cast; ring
      · simp only [loop, hi]
        rcases hcases with ⟨h1, h2⟩ | ⟨h1, h2⟩
        · exact Or.inl ⟨h1, by rw [h2]; simp; omega⟩
        · exact Or.inr ⟨h1, by rw [h2]; simp; omega⟩

/-- The routine, once its three precondition checks and the three initial
evaluations are passed, is the loop started in `initState`. -/
theorem run_eq_loop (function : α → α × α) (x_lower x_upper x_guess abs_tolerance : α)
    (max_iterations : Int) (hb : x_lower ≤ x_guess ∧ x_guess ≤ x_upper)
    (ht : 0 < abs_tolerance) (hm : 0 < max_iterations)
    (hs : OppositeSign (function x_lower).1 (function x_upper).1)
    (hg : (function x_guess).1 ≠ 0) :
    DoNewtonWithBisectionFallback function x_lower x_upper x_guess abs_tolerance max_iterations
      = loop function abs_tolerance (max_iterations - 2).toNat 3
          (initState function x_lower x_upper x_guess) [x_lower, x_upper, x_guess] := by
  have hprod := (oppositeSign_iff_mul_neg _ _).mp hs
  have hl : (function x_lower).1 ≠ 0 := fun h0 => by
    rw [h0, zero_mul] at hprod; exact lt_irrefl _ hprod
  have hu : (function x_upper).1 ≠ 0 := fun h0 => by
    rw [h0, mul_zero] at hprod; exact lt_irrefl _ hprod
  unfold DoNewtonWithBisectionFallback
  simp [hb, ht, hm, hl, hu, hprod, hg]

/-- The third exact hit: opposite signs at the ends and a zero at the guess. -/
theorem run_of_guess_zero (function : α → α × α) (x_lower x_upper x_guess abs_tolerance : α)
    (max_iterations : Int) (hb : x_lower ≤ x_guess ∧ x_guess ≤ x_upper)
    (ht : 0 < abs_tolerance) (hm : 0 < max_iterations)
    (hs : OppositeSign (function x_lower).1 (function x_upper).1)
    (hg : (function x_guess).1 = 0) :
    DoNewtonWithBisectionFallback function x_lower x_upper x_guess abs_tolerance max_iterations
      = ⟨.ok (x_guess, 3), [x_lower, x_upper, x_guess]⟩ := by
  have hprod := (oppositeSign_iff_mul_neg _ _).mp hs
  have hl : (function x_lower).1 ≠ 0 := fun h0 => by
    rw [h0, zero_mul] at hprod; exact lt_irrefl _ hprod
  have hu : (function x_upper).1 ≠ 0 := fun h0 => by
    rw [h0, mul_zero] at hprod; exact lt_irrefl _ hprod
  unfold DoNewtonWithBisectionFallback
  simp [hb, ht, hm, hl, hu, hprod, hg]

/-- A successful call either returned one of the three points evaluated before
the loop, where the evaluator is zero, or it passed all checks and the loop
returned. -/
theorem run_ok_cases (function : α → α × α) (x_lower x_upper x_guess abs_tolerance : α)
    (max_iterations : Int) (x : α) (n : Int)
    (h : (DoNewtonWithBisectionFallback function x_lower x_upper x_guess abs_tolerance
      max_iterations).result = .ok (x, n)) :
    (x_lower ≤ x_guess ∧ x_guess ≤ x_upper) ∧ 0 < abs_tolerance ∧ 0 < max_iterations ∧
    (((function x).1 = 0 ∧ (x = x_lower ∨ x = x_upper ∨ x = x_guess) ∧
        (DoNewtonWithBisectionFallback function x_lower x_upper x_guess abs_tolerance
          max_iterations).evals.length = n) ∨
     (OppositeSign (function x_lower).1 (function x_upper).1 ∧ (function x_guess).1 ≠ 0 ∧
        (loop function abs_tolerance (max_iterations - 2).toNat 3
          (initState function x_lower x_upper x_guess) [x_lower, x_upper, x_guess]).result
            = .ok (x, n))) := by
  unfold DoNewtonWithBisectionFallback at h ⊢
  split_ifs at h ⊢ with h1 h2 h3 h4 h5 h6 h7
  all_goals try simp only [Except.ok.injEq, Prod.mk.injEq, reduceCtorEq] at h
  · obtain ⟨rfl, rfl⟩ := h
    exact ⟨h1, h2, h3, Or.inl ⟨h4, Or.inl rfl, by simp⟩⟩
  · obtain ⟨rfl, rfl⟩ := h
    exact ⟨h1, h2, h3, Or.inl ⟨h5, Or.inr (Or.inl rfl), by simp⟩⟩
  · obtain ⟨rfl, rfl⟩ := h
    exact ⟨h1, h2, h3, Or.inl ⟨h7, Or.inr (Or.inr rfl), by simp⟩⟩
  · exact ⟨h1, h2, h3, Or.inr ⟨(oppositeSign_iff_mul_neg _ _).mpr h6, h7, h⟩⟩

theorem loop_of_converged (function : α → α × α) (abs_tolerance : α) (remaining : Nat)
    (num_evaluations : Int) (s : LoopState α) (evals : List α) (x : α)
    (h : iterate function abs_tolerance s = .converged x) :
    loop function abs_tolerance (remaining + 1) num_evaluations s evals
      = ⟨.ok (x, num_evaluations), evals⟩ := by
  simp only [loop, h]

theorem loop_of_next (function : α → α × α) (abs_tolerance : α) (remaining : Nat)
    (num_evaluations : Int) (s t : LoopState α) (evals : List α)
    (h : iterate function abs_tolerance s = .next t) :
    loop function abs_tolerance (remaining + 1) num_evaluations s evals
      = loop function abs_tolerance remaining (num_evaluations + 1) t (evals ++ [t.root]) := by
  simp only [loop, h]

/-- What the bracket update does to the loop variables. -/
theorem updateBracket_cases (s : LoopState α) (root minus_dx f df : α) :
    (updateBracket s root minus_dx f df).root = root ∧
    (updateBracket s root minus_dx f df).minus_dx = minus_dx ∧
    (updateBracket s root minus_dx f df).f = f ∧
    (updateBracket s root minus_dx f df).df = df ∧
    (((updateBracket s root minus_dx f df).x_lower = root ∧
        (updateBracket s root minus_dx f df).x_upper = s.x_upper) ∨
     ((updateBracket s root minus_dx f df).x_lower = s.x_lower ∧
        (updateBracket s root minus_dx f df).x_upper = root)) := by
  unfold updateBracket
  split_ifs with hc
  · exact ⟨rfl, rfl, rfl, rfl, Or.inl ⟨rfl, rfl⟩⟩
  · exact ⟨rfl, rfl, rfl, rfl, Or.inr ⟨rfl, rfl⟩⟩

/-- When the Newton step is taken the derivative is nonzero. -/
theorem df_ne_zero_of_newton (s : LoopState α) (hf : s.f ≠ 0)
    (h : newton_is_slow s = false) : s.df ≠ 0 := by
  intro h0
  simp only [newton_is_slow, decide_eq_false_iff_not, not_lt] at h
  rw [h0, mul_zero, abs_zero] at h
  have := abs_pos.mpr hf
  linarith

/-- An accepted Newton step is at most half as long as the previous step. -/
theorem newton_step_le_half (s : LoopState α) (hf : s.f ≠ 0)
    (h : takesBisection s = false) : |(takeStep s).2| ≤ |s.minus_dx| / 2 := by
  rw [takeStep_of_newton s h]
  unfold takesBisection at h
  rw [Bool.or_eq_false_iff] at h
  have hdf := df_ne_zero_of_newton s hf h.1
  have hslow := h.1
  simp only [newton_is_slow, decide_eq_false_iff_not, not_lt, abs_mul] at hslow
  have hpos : 0 < |s.df| := abs_pos.mpr hdf
  simp only [do_newton, abs_div]
  rw [div_le_iff₀ hpos]
  linarith

/-- The loop returns when enough iterations remain: with the bracket narrower
than `abs_tolerance * 2 ^ a` and the last step shorter than
`abs_tolerance * 2 ^ b`, `a * a + b + 1` iterations are enough, whatever the
evaluator returns. -/
theorem loop_returns (function : α → α × α) (abs_tolerance : α) (remaining : Nat) :
    ∀ (a b : Nat) (num_evaluations : Int) (s : LoopState α) (evals : List α),
      s.x_lower ≤ s.root → s.root ≤ s.x_upper → s.f ≠ 0 →
      s.x_upper - s.x_lower < abs_tolerance * 2 ^ a →
      |s.minus_dx| < abs_tolerance * 2 ^ b →
      a * a + b + 1 ≤ remaining →
      ∃ (x : α) (m : Int),
        (loop function abs_tolerance remaining num_evaluations s evals).result = .ok (x, m) := by
  induction remaining with
  | zero =>
    intro a b n s evals _ _ _ _ _ hfuel
    omega
  | succ r ih =>
    intro a b n s evals h1 h2 hf hw hd hfuel
    cases hi : iterate function abs_tolerance s with
    | converged y => exact ⟨y, n, by simp [loop, hi]⟩
    | exactZero y => exact ⟨y, n, by simp [loop, hi]⟩
    | next t =>
      simp only [loop, hi]
      obtain ⟨hge, hne, ht⟩ := iterate_next function abs_tolerance s t hi
      obtain ⟨-, ht1, ht2, -⟩ := iterate_next_bracket function abs_tolerance s.x_lower
        s.x_upper s t ⟨le_refl _, h1, h2, le_refl _⟩ hi
      obtain ⟨hroot, hdx, htf, -, hbr⟩ := updateBracket_cases s (takeStep s).1 (takeStep s).2
        (function (takeStep s).1).1 (function (takeStep s).1).2
      rw [← ht] at hroot hdx htf hbr
      have htf0 : t.f ≠ 0 := by rw [htf]; exact hne
      have hmem := takeStep_mem s (h1.trans h2)
      cases hb : takesBisection s with
      | false =>
        have hhalf := newton_step_le_half s hf hb
        have hwt : t.x_upper - t.x_lower ≤ s.x_upper - s.x_lower := by
          rcases hbr with ⟨e1, e2⟩ | ⟨e1, e2⟩
          · rw [e1, e2]; linarith [hmem.1]
          · rw [e1, e2]; linarith [hmem.2]
        cases b with
        | zero =>
          exfalso
          simp only [pow_zero, mul_one] at hd
          have := abs_nonneg s.minus_dx
          linarith
        | succ b1 =>
          refine ih a b1 (n + 1) t _ ht1 ht2 htf0 (lt_of_le_of_lt hwt hw) ?_ (by omega)
          rw [hdx]
          rw [pow_succ] at hd
          linarith
      | true =>
        have hstep : |(takeStep s).2| = (s.x_upper - s.x_lower) / 2 := by
          rw [takeStep_of_bisection s hb, do_bisection_snd,
            abs_of_nonpos (by linarith [h1.trans h2])]
          ring
        have hwt : t.x_upper - t.x_lower = (s.x_upper - s.x_lower) / 2 := by
          rw [takeStep_of_bisection s hb, do_bisection_fst] at hbr
          rcases hbr with ⟨e1, e2⟩ | ⟨e1, e2⟩
          · rw [e1, e2]; ring
          · rw [e1, e2]; ring
        cases a with
        | zero =>
          exfalso
          simp only [pow_zero, mul_one] at hw
          rw [hstep] at hge
          linarith [h1.trans h2]
        | succ a1 =>
          rw [pow_succ] at hw
          refine ih a1 a1 (n + 1) t _ ht1 ht2 htf0 ?_ ?_ ?_
          · rw [hwt]; linarith
          · rw [hdx, hstep]; linarith
          · have : (a1 + 1) * (a1 + 1) = a1 * a1 + 2 * a1 + 1 := by ring
            omega

/-- The current function value stays nonzero across bracket updates. -/
theorem stateAfter_f_ne (function : α → α × α) (abs_tolerance : α) (k : Nat) :
    ∀ s t : LoopState α, s.f ≠ 0 → stateAfter function abs_tolerance k s = some t → t.f ≠ 0 := by
  induction k with
  | zero =>
    intro s t hf h
    simp only [stateAfter, Option.some.injEq] at h
    exact h ▸ hf
  | succ k ih =>
    intro s t _ h
    simp only [stateAfter] at h
    cases hi : iterate function abs_tolerance s with
    | converged x => simp [hi] at h
    | exactZero x => simp [hi] at h
    | next s1 =>
      simp only [hi] at h
      obtain ⟨-, hne, ht⟩ := iterate_next function abs_tolerance s s1 hi
      have hf1 : s1.f ≠ 0 := by
        rw [ht, (updateBracket_cases s _ _ _ _).2.2.1]; exact hne
      exact ih s1 t hf1 h

/-- After at least one completed iteration the recorded step did not meet the
tolerance and the iterate is one of the two bracket ends. -/
theorem stateAfter_succ_step (function : α → α × α) (abs_tolerance : α) (k : Nat) :
    ∀ s t : LoopState α, stateAfter function abs_tolerance (k + 1) s = some t →
      abs_tolerance ≤ |t.minus_dx| ∧ (t.root = t.x_lower ∨ t.root = t.x_upper) := by
  induction k with
  | zero =>
    intro s t h
    simp only [stateAfter] at h
    cases hi : iterate function abs_tolerance s with
    | converged x => simp [hi] at h
    | exactZero x => simp [hi] at h
    | next s1 =>
      simp only [hi, Option.some.injEq] at h
      subst h
      obtain ⟨hge, -, ht⟩ := iterate_next function abs_tolerance s s1 hi
      obtain ⟨hroot, hdx, -, -, hbr⟩ := updateBracket_cases s (takeStep s).1 (takeStep s).2
        (function (takeStep s).1).1 (function (takeStep s).1).2
      rw [← ht] at hroot hdx hbr
      refine ⟨by rw [hdx]; exact hge, ?_⟩
      rcases hbr with ⟨e1, -⟩ | ⟨-, e2⟩
      · exact Or.inl (by rw [hroot, e1])
      · exact Or.inr (by rw [hroot, e2])
  | succ k ih =>
    intro s t h
    rw [stateAfter] at h
    cases hi : iterate function abs_tolerance s with
    | converged x => simp [hi] at h
    | exactZero x => simp [hi] at h
    | next s1 =>
      simp only [hi] at h
      exact ih s1 t h

/-- The loop either returns a pair or runs through all remaining iterations
and throws the non-convergence error built from the final loop state. -/
theorem loop_result_cases (function : α → α × α) (abs_tolerance : α) (remaining : Nat) :
    ∀ (num_evaluations : Int) (s : LoopState α) (evals : List α),
      (∃ (x : α) (m : Int),
        (loop function abs_tolerance remaining num_evaluations s evals).result = .ok (x, m)) ∨
      (∃ t : LoopState α, stateAfter function abs_tolerance remaining s = some t ∧
        (loop function abs_tolerance remaining num_evaluations s evals).result
          = .error (.didNotConverge |t.minus_dx| |t.x_upper - t.x_lower|)) := by
  induction remaining with
  | zero =>
    intro n s evals
    exact Or.inr ⟨s, rfl, rfl⟩
  | succ r ih =>
    intro n s evals
    cases hi : iterate function abs_tolerance s with
    | converged y => exact Or.inl ⟨y, n, by simp [loop, hi]⟩
    | exactZero y => exact Or.inl ⟨y, n, by simp [loop, hi]⟩
    | next s1 =>
      simp only [loop, hi, stateAfter]
      exact ih (n + 1) s1 (evals ++ [s1.root])

/-- Each loop iteration calls the evaluator at most once. -/
theorem loop_evals_length_le (function : α → α × α) (abs_tolerance : α) (remaining : Nat) :
    ∀ (num_evaluations : Int) (s : LoopState α) (evals : List α),
      (loop function abs_tolerance remaining num_evaluations s evals).evals.length
        ≤ evals.length + remaining := by
  induction remaining with
  | zero =>
    intro n s evals
    simp [loop]
  | succ r ih =>
    intro n s evals
    cases hi : iterate function abs_tolerance s with
    | converged y => simp [loop, hi]
    | exactZero y => simp [loop, hi]
    | next s1 =>
      simp only [loop, hi]
      have := ih (n + 1) s1 (evals ++ [s1.root])
      simp only [List.length_append, List.length_singleton] at this
      omega

/-- The six ways a call can go: a failed argument check, one of the three
exact hits, a rejected bracket, or the loop. -/
theorem run_cases (function : α → α × α) (x_lower x_upper x_guess abs_tolerance : α)
    (max_iterations : Int) :
    (¬ ((x_lower ≤ x_guess ∧ x_guess ≤ x_upper) ∧ 0 < abs_tolerance ∧ 0 < max_iterations) ∧
      DoNewtonWithBisectionFallback function x_lower x_upper x_guess abs_tolerance
        max_iterations = ⟨.error .precondition, []⟩) ∨
    (((x_lower ≤ x_guess ∧ x_guess ≤ x_upper) ∧ 0 < abs_tolerance ∧ 0 < max_iterations) ∧
      (((function x_lower).1 = 0 ∧
        DoNewtonWithBisectionFallback function x_lower x_upper x_guess abs_tolerance
          max_iterations = ⟨.ok (x_lower, 1), [x_lower]⟩) ∨
       ((function x_lower).1 ≠ 0 ∧ (function x_upper).1 = 0 ∧
        DoNewtonWithBisectionFallback function x_lower x_upper x_guess abs_tolerance
          max_iterations = ⟨.ok (x_upper, 2), [x_lower, x_upper]⟩) ∨
       ((function x_lower).1 ≠ 0 ∧ (function x_upper).1 ≠ 0 ∧
        ¬ OppositeSign (function x_lower).1 (function x_upper).1 ∧
        DoNewtonWithBisectionFallback function x_lower x_upper x_guess abs_tolerance
          max_iterations = ⟨.error .precondition, [x_lower, x_upper]⟩) ∨
       (OppositeSign (function x_lower).1 (function x_upper).1 ∧ (function x_guess).1 = 0 ∧
        DoNewtonWithBisectionFallback function x_lower x_upper x_guess abs_tolerance
          max_iterations = ⟨.ok (x_guess, 3), [x_lower, x_upper, x_guess]⟩) ∨
       (OppositeSign (function x_lower).1 (function x_upper).1 ∧ (function x_guess).1 ≠ 0 ∧
        DoNewtonWithBisectionFallback function x_lower x_upper x_guess abs_tolerance
          max_iterations = loop function abs_tolerance (max_iterations - 2).toNat 3
            (initState function x_lower x_upper x_guess) [x_lower, x_upper, x_guess]))) := by
  by_cases h1 : x_lower ≤ x_guess ∧ x_guess ≤ x_upper
  swap
  · exact Or.inl ⟨fun h => h1 h.1, by simp [DoNewtonWithBisectionFallback, h1]⟩
  by_cases h2 : 0 < abs_tolerance
  swap
  · exact Or.inl ⟨fun h => h2 h.2.1, by simp [DoNewtonWithBisectionFallback, h1, h2]⟩
  by_cases h3 : 0 < max_iterations
  swap
  · exact Or.inl ⟨fun h => h3 h.2.2, by simp [DoNewtonWithBisectionFallback, h1, h2, h3]⟩
  refine Or.inr ⟨⟨h1, h2, h3⟩, ?_⟩
  by_cases h4 : (function x_lower).1 = 0
  · exact Or.inl ⟨h4, by simp [DoNewtonWithBisectionFallback, h1, h2, h3, h4]⟩
  by_cases h5 : (function x_upper).1 = 0
  · exact Or.inr (Or.inl ⟨h4, h5, by simp [DoNewtonWithBisectionFallback, h1, h2, h3, h4, h5]⟩)
  by_cases h6 : (function x_lower).1 * (function x_upper).1 < 0
  swap
  · refine Or.inr (Or.inr (Or.inl ⟨h4, h5, ?_, ?_⟩))
    · rw [oppositeSign_iff_mul_neg]; exact h6
    · simp [DoNewtonWithBisectionFallback, h1, h2, h3, h4, h5, not_lt.mp h6]
  have hs := (oppositeSign_iff_mul_neg _ _).mpr h6
  by_cases h7 : (function x_guess).1 = 0
  · exact Or.inr (Or.inr (Or.inr (Or.inl ⟨hs, h7,
      run_of_guess_zero function x_lower x_upper x_guess abs_tolerance max_iterations
        h1 h2 h3 hs h7⟩)))
  · exact Or.inr (Or.inr (Or.inr (Or.inr ⟨hs, h7,
      run_eq_loop function x_lower x_upper x_guess abs_tolerance max_iterations
        h1 h2 h3 hs h7⟩)))

end Lemmas

/-! ## Early exits and rejected calls -/

section Contract

variable {α : Type} [LinearOrderedField α]

/-- Exact reading of C1: with `x_lower ≤ x_guess ≤ x_upper`, a positive tolerance and a positive
iteration budget (1 and 2 included), a zero at `x_lower` returns `(x_lower, 1)`;
otherwise a zero at `x_upper` returns `(x_upper, 2)`; otherwise, when the
endpoint values have strictly opposite sign, a zero at `x_guess` returns
`(x_guess, 3)`. -/
theorem exact_hit_short_circuits (function : α → α × α)
    (x_lower x_upper x_guess abs_tolerance : α) (max_iterations : Int)
    (hb : x_lower ≤ x_guess ∧ x_guess ≤ x_upper) (ht : 0 < abs_tolerance)
    (hm : 0 < max_iterations) :
    ((function x_lower).1 = 0 →
      (DoNewtonWithBisectionFallback function x_lower x_upper x_guess abs_tolerance
        max_iterations).result = .ok (x_lower, 1)) ∧
    ((function x_lower).1 ≠ 0 → (function x_upper).1 = 0 →
      (DoNewtonWithBisectionFallback function x_lower x_upper x_guess abs_tolerance
        max_iterations).result = .ok (x_upper, 2)) ∧
    (OppositeSign (function x_lower).1 (function x_upper).1 → (function x_guess).1 = 0 →
      (DoNewtonWithBisectionFallback function x_lower x_upper x_guess abs_tolerance
        max_iterations).result = .ok (x_guess, 3)) := by
  refine ⟨fun h0 => ?_, fun hl h0 => ?_, fun hs h0 => ?_⟩
  · unfold DoNewtonWithBisectionFallback
    simp [hb, ht, hm, h0]
  · unfold DoNewtonWithBisectionFallback
    simp [hb, ht, hm, hl, h0]
  · rw [run_of_guess_zero function x_lower x_upper x_guess abs_tolerance max_iterations
      hb ht hm hs h0]

/-- The three exact hits of C1 on `x ↦ x - c` over `[0, 2]` with guess `1`,
for `c = 0, 2, 1` and budgets `1, 2, 1`. -/
theorem exact_hit_short_circuits_witness :
    (DoNewtonWithBisectionFallback (fun x : ℚ => (x - 0, 1)) 0 2 1 (1 / 2) 1).result
        = .ok (0, 1) ∧
    (DoNewtonWithBisectionFallback (fun x : ℚ => (x - 2, 1)) 0 2 1 (1 / 2) 2).result
        = .ok (2, 2) ∧
    (DoNewtonWithBisectionFallback (fun x : ℚ => (x - 1, 1)) 0 2 1 (1 / 2) 1).result
        = .ok (1, 3) :=
  ⟨(exact_hit_short_circuits (fun x : ℚ => (x - 0, 1)) 0 2 1 (1 / 2) 1
      (by norm_num) (by norm_num) (by norm_num)).1 (by norm_num),
   (exact_hit_short_circuits (fun x : ℚ => (x - 2, 1)) 0 2 1 (1 / 2) 2
      (by norm_num) (by norm_num) (by norm_num)).2.1 (by norm_num) (by norm_num),
   (exact_hit_short_circuits (fun x : ℚ => (x - 1, 1)) 0 2 1 (1 / 2) 1
      (by norm_num) (by norm_num) (by norm_num)).2.2
      (Or.inl (by norm_num)) (by norm_num)⟩

/-- C2: when `x_guess` is outside `[x_lower, x_upper]`, or the tolerance is not
positive, or the iteration budget is not positive, the call fails with a
precondition violation and the evaluator is never called. -/
theorem precondition_rejection (function : α → α × α)
    (x_lower x_upper x_guess abs_tolerance : α) (max_iterations : Int)
    (h : x_guess < x_lower ∨ x_guess > x_upper ∨ abs_tolerance ≤ 0 ∨ max_iterations ≤ 0) :
    (DoNewtonWithBisectionFallback function x_lower x_upper x_guess abs_tolerance
        max_iterations).result = .error .precondition ∧
    (DoNewtonWithBisectionFallback function x_lower x_upper x_guess abs_tolerance
        max_iterations).evals = [] := by
  unfold DoNewtonWithBisectionFallback
  by_cases h1 : x_lower ≤ x_guess ∧ x_guess ≤ x_upper
  · by_cases h2 : abs_tolerance > 0
    · have h3 : ¬ max_iterations > 0 := by
        rcases h with h | h | h | h
        · exact absurd h1.1 (not_le.mpr h)
        · exact absurd h1.2 (not_le.mpr h)
        · exact absurd h2 (not_lt.mpr h)
        · exact not_lt.mpr h
      simp only [h1, h2, h3, not_true_eq_false, not_false_eq_true, if_true, if_false, and_self]
    · simp only [h1, h2, not_true_eq_false, not_false_eq_true, if_true, if_false, and_self]
  · simp only [h1, not_false_eq_true, if_true, and_self]

/-- The four rejections of C2 on `x ↦ x - 1`: guess below the bracket, guess
above the bracket, tolerance zero, budget zero. -/
theorem precondition_rejection_witness :
    ((DoNewtonWithBisectionFallback (fun x : ℚ => (x - 1, 1)) 0 2 (-1) (1 / 2) 10).result
        = .error .precondition ∧
     (DoNewtonWithBisectionFallback (fun x : ℚ => (x - 1, 1)) 0 2 (-1) (1 / 2) 10).evals = []) ∧
    ((DoNewtonWithBisectionFallback (fun x : ℚ => (x - 1, 1)) 0 2 3 (1 / 2) 10).result
        = .error .precondition ∧
     (DoNewtonWithBisectionFallback (fun x : ℚ => (x - 1, 1)) 0 2 3 (1 / 2) 10).evals = []) ∧
    ((DoNewtonWithBisectionFallback (fun x : ℚ => (x - 1, 1)) 0 2 1 0 10).result
        = .error .precondition ∧
     (DoNewtonWithBisectionFallback (fun x : ℚ => (x - 1, 1)) 0 2 1 0 10).evals = []) ∧
    ((DoNewtonWithBisectionFallback (fun x : ℚ => (x - 1, 1)) 0 2 1 (1 / 2) 0).result
        = .error .precondition ∧
     (DoNewtonWithBisectionFallback (fun x : ℚ => (x - 1, 1)) 0 2 1 (1 / 2) 0).evals = []) :=
  ⟨precondition_rejection (fun x : ℚ => (x - 1, 1)) 0 2 (-1) (1 / 2) 10 (Or.inl (by norm_num)),
   precondition_rejection (fun x : ℚ => (x - 1, 1)) 0 2 3 (1 / 2) 10
     (Or.inr (Or.inl (by norm_num))),
   precondition_rejection (fun x : ℚ => (x - 1, 1)) 0 2 1 0 10
     (Or.inr (Or.inr (Or.inl (le_refl _)))),
   precondition_rejection (fun x : ℚ => (x - 1, 1)) 0 2 1 (1 / 2) 0
     (Or.inr (Or.inr (Or.inr (le_refl _))))⟩

/-- C3: with the three argument preconditions satisfied, endpoint values that
are both nonzero and of the same sign make the call fail with a precondition
violation after exactly two evaluator calls, at `x_lower` and then at
`x_upper`; `x_guess` is not evaluated. -/
theorem invalid_bracket_rejection (function : α → α × α)
    (x_lower x_upper x_guess abs_tolerance : α) (max_iterations : Int)
    (hb : x_lower ≤ x_guess ∧ x_guess ≤ x_upper) (ht : 0 < abs_tolerance)
    (hm : 0 < max_iterations)
    (hs : SameSign (function x_lower).1 (function x_upper).1) :
    (DoNewtonWithBisectionFallback function x_lower x_upper x_guess abs_tolerance
        max_iterations).result = .error .precondition ∧
    (DoNewtonWithBisectionFallback function x_lower x_upper x_guess abs_tolerance
        max_iterations).evals = [x_lower, x_upper] := by
  have hprod := (sameSign_iff_mul_pos _ _).mp hs
  have hl : (function x_lower).1 ≠ 0 := fun h1 => by
    rw [h1, zero_mul] at hprod; exact lt_irrefl _ hprod
  have hu : (function x_upper).1 ≠ 0 := fun h1 => by
    rw [h1, mul_zero] at hprod; exact lt_irrefl _ hprod
  unfold DoNewtonWithBisectionFallback
  simp [hb, ht, hm, hl, hu, hprod.le]

/-- The rejection of C3 on `x ↦ x² + 1` (positive at both ends) and on
`x ↦ -x² - 1` (negative at both ends) over `[0, 2]`. -/
theorem invalid_bracket_rejection_witness :
    ((DoNewtonWithBisectionFallback (fun x : ℚ => (x ^ 2 + 1, 2 * x)) 0 2 1 (1 / 2) 10).result
        = .error .precondition ∧
     (DoNewtonWithBisectionFallback (fun x : ℚ => (x ^ 2 + 1, 2 * x)) 0 2 1 (1 / 2) 10).evals
        = [0, 2]) ∧
    ((DoNewtonWithBisectionFallback (fun x : ℚ => (-x ^ 2 - 1, -2 * x)) 0 2 1 (1 / 2) 10).result
        = .error .precondition ∧
     (DoNewtonWithBisectionFallback (fun x : ℚ => (-x ^ 2 - 1, -2 * x)) 0 2 1 (1 / 2) 10).evals
        = [0, 2]) :=
  ⟨invalid_bracket_rejection (fun x : ℚ => (x ^ 2 + 1, 2 * x)) 0 2 1 (1 / 2) 10
      (by norm_num) (by norm_num) (by norm_num) (Or.inr (by norm_num)),
   invalid_bracket_rejection (fun x : ℚ => (-x ^ 2 - 1, -2 * x)) 0 2 1 (1 / 2) 10
      (by norm_num) (by norm_num) (by norm_num) (Or.inl (by norm_num))⟩

end Contract

/-! ## Properties of successful calls -/

section Success

variable {α : Type} [LinearOrderedField α]

/-- Exact reading of C6: a successful call returns either a point where the evaluator is exactly
zero, or the iterate produced by the step of the iteration in which it returned
(the one entered with `num_evaluations = n`), and that iterate is closer than
`abs_tolerance` to the previous iterate, which is `x_guess` in the first
iteration, for a bisection step as well as for a Newton step. -/
theorem stopping_criterion (function : α → α × α)
    (x_lower x_upper x_guess abs_tolerance : α) (max_iterations : Int) (x : α) (n : Int)
    (h : (DoNewtonWithBisectionFallback function x_lower x_upper x_guess abs_tolerance
      max_iterations).result = .ok (x, n)) :
    (function x).1 = 0 ∨
    (3 ≤ n ∧ ∃ s : LoopState α,
      stateAfter function abs_tolerance (n - 3).toNat
        (initState function x_lower x_upper x_guess) = some s ∧
      x = (takeStep s).1 ∧ |x - s.root| < abs_tolerance) := by
  obtain ⟨hb, -, -, hc⟩ := run_ok_cases function x_lower x_upper x_guess abs_tolerance
    max_iterations x n h
  rcases hc with ⟨h0, -, -⟩ | ⟨-, -, hl⟩
  · exact Or.inl h0
  · obtain ⟨k, t, -, hst, hn, hcases⟩ := loop_ok_cases function abs_tolerance x n _ _ _ _ hl
    rcases hcases with ⟨hi, -⟩ | ⟨hi, -⟩
    · right
      obtain ⟨hlt, hx⟩ := iterate_converged function abs_tolerance t x hi
      have hbr := stateAfter_bracket function abs_tolerance x_lower x_upper k _ t
        ⟨le_refl _, hb.1, hb.2, le_refl _⟩ hst
      have hk : (n - 3).toNat = k := by rw [hn]; simp
      refine ⟨by rw [hn]; omega, t, by rw [hk]; exact hst, hx, ?_⟩
      rw [hx]
      exact lt_of_le_of_lt (takeStep_dist t hbr.2.1 hbr.2.2.1) hlt
    · exact Or.inl (iterate_exactZero function abs_tolerance t x hi).1

/-- Exact reading of C6 on `x ↦ x² - 9` over `[0, 4]` with the interior guess `1` and tolerance
`3`: the first iteration bisects to `2` and returns it, at distance `1` from the
guess. -/
theorem stopping_criterion_witness :
    (DoNewtonWithBisectionFallback (fun x : ℚ => (x ^ 2 - 9, 2 * x)) 0 4 1 3 3).result
        = .ok (2, 3) ∧
    takesBisection (initState (fun x : ℚ => (x ^ 2 - 9, 2 * x)) 0 4 1) = true ∧
    ((fun x : ℚ => (x ^ 2 - 9, 2 * x)) 2).1 ≠ 0 ∧
    (((fun x : ℚ => (x ^ 2 - 9, 2 * x)) 2).1 = 0 ∨
      ((3 : Int) ≤ 3 ∧ ∃ s : LoopState ℚ,
        stateAfter (fun x : ℚ => (x ^ 2 - 9, 2 * x)) 3 ((3 : Int) - 3).toNat
          (initState (fun x : ℚ => (x ^ 2 - 9, 2 * x)) 0 4 1) = some s ∧
        (2 : ℚ) = (takeStep s).1 ∧ |(2 : ℚ) - s.root| < 3)) :=
  have h : (DoNewtonWithBisectionFallback (fun x : ℚ => (x ^ 2 - 9, 2 * x)) 0 4 1 3 3).result
      = .ok (2, 3) := by
    norm_num [DoNewtonWithBisectionFallback, loop, iterate, takeStep, newton_is_slow,
      do_newton, do_bisection, outside_bracket, updateBracket, initState, abs_lt]
  ⟨h, by norm_num [takesBisection, newton_is_slow, initState], by norm_num,
    stopping_criterion (fun x : ℚ => (x ^ 2 - 9, 2 * x)) 0 4 1 3 3 2 3 h⟩

/-- Exact reading of C7: the root returned by a successful call lies in the bracket
`[x_lower, x_upper]` that was passed in; and in every loop iteration the
bracket is contained in the original one, the current iterate lies in the
current bracket, and so does the next iterate. -/
theorem root_in_bracket (function : α → α × α)
    (x_lower x_upper x_guess abs_tolerance : α) (max_iterations : Int) (x : α) (n : Int)
    (h : (DoNewtonWithBisectionFallback function x_lower x_upper x_guess abs_tolerance
      max_iterations).result = .ok (x, n)) :
    (x_lower ≤ x ∧ x ≤ x_upper) ∧
    ∀ (k : Nat) (s : LoopState α),
      stateAfter function abs_tolerance k (initState function x_lower x_upper x_guess) = some s →
      (x_lower ≤ s.x_lower ∧ s.x_upper ≤ x_upper) ∧
      (s.x_lower ≤ s.root ∧ s.root ≤ s.x_upper) ∧
      (s.x_lower ≤ (takeStep s).1 ∧ (takeStep s).1 ≤ s.x_upper) := by
  obtain ⟨hb, -, -, hc⟩ := run_ok_cases function x_lower x_upper x_guess abs_tolerance
    max_iterations x n h
  have hall : ∀ (k : Nat) (s : LoopState α),
      stateAfter function abs_tolerance k (initState function x_lower x_upper x_guess) = some s →
      (x_lower ≤ s.x_lower ∧ s.x_upper ≤ x_upper) ∧
      (s.x_lower ≤ s.root ∧ s.root ≤ s.x_upper) ∧
      (s.x_lower ≤ (takeStep s).1 ∧ (takeStep s).1 ≤ s.x_upper) := by
    intro k s hst
    have hbr := stateAfter_bracket function abs_tolerance x_lower x_upper k _ s
      ⟨le_refl _, hb.1, hb.2, le_refl _⟩ hst
    exact ⟨⟨hbr.1, hbr.2.2.2⟩, ⟨hbr.2.1, hbr.2.2.1⟩,
      takeStep_mem s (hbr.2.1.trans hbr.2.2.1)⟩
  refine ⟨?_, hall⟩
  rcases hc with ⟨-, hx | hx | hx, -⟩ | ⟨-, -, hl⟩
  · rw [hx]; exact ⟨le_refl _, hb.1.trans hb.2⟩
  · rw [hx]; exact ⟨hb.1.trans hb.2, le_refl _⟩
  · rw [hx]; exact hb
  · obtain ⟨k, t, -, hst, -, hcases⟩ := loop_ok_cases function abs_tolerance x n _ _ _ _ hl
    obtain ⟨⟨h1, h2⟩, -, h3, h4⟩ := hall k t hst
    have hx : x = (takeStep t).1 := by
      rcases hcases with ⟨hi, -⟩ | ⟨hi, -⟩
      · exact (iterate_converged function abs_tolerance t x hi).2
      · exact (iterate_exactZero function abs_tolerance t x hi).2
    rw [hx]
    exact ⟨h1.trans h3, h4.trans h2⟩

/-- Exact reading of C7 on `x ↦ x - 1` over `[0, 4]` with guess `3`: the Newton step lands on the
root `1`, inside the bracket. -/
theorem root_in_bracket_witness :
    (DoNewtonWithBisectionFallback (fun x : ℚ => (x - 1, 1)) 0 4 3 (1 / 2) 5).result
        = .ok (1, 3) ∧
    (((0 : ℚ) ≤ 1 ∧ (1 : ℚ) ≤ 4) ∧
      ∀ (k : Nat) (s : LoopState ℚ),
        stateAfter (fun x : ℚ => (x - 1, 1)) (1 / 2) k
          (initState (fun x : ℚ => (x - 1, 1)) 0 4 3) = some s →
        ((0 : ℚ) ≤ s.x_lower ∧ s.x_upper ≤ 4) ∧
        (s.x_lower ≤ s.root ∧ s.root ≤ s.x_upper) ∧
        (s.x_lower ≤ (takeStep s).1 ∧ (takeStep s).1 ≤ s.x_upper)) :=
  have h : (DoNewtonWithBisectionFallback (fun x : ℚ => (x - 1, 1)) 0 4 3 (1 / 2) 5).result
      = .ok (1, 3) := by
    norm_num [DoNewtonWithBisectionFallback, loop, iterate, takeStep, newton_is_slow,
      do_newton, do_bisection, outside_bracket, updateBracket, initState, abs_lt]
  ⟨h, root_in_bracket (fun x : ℚ => (x - 1, 1)) 0 4 3 (1 / 2) 5 1 3 h⟩

/-- The count returned by a successful call against the number of evaluator
calls: they agree on the three exits before the loop and on the tolerance
exit; on the exact-zero exit inside the loop the evaluator has been called
once more than the count returned. -/
theorem evaluation_count_cases (function : α → α × α)
    (x_lower x_upper x_guess abs_tolerance : α) (max_iterations : Int) (x : α) (n : Int)
    (h : (DoNewtonWithBisectionFallback function x_lower x_upper x_guess abs_tolerance
      max_iterations).result = .ok (x, n)) :
    ((DoNewtonWithBisectionFallback function x_lower x_upper x_guess abs_tolerance
      max_iterations).evals.length : Int) = n ∨
    (3 ≤ n ∧ (function x).1 = 0 ∧
      ((DoNewtonWithBisectionFallback function x_lower x_upper x_guess abs_tolerance
        max_iterations).evals.length : Int) = n + 1) := by
  obtain ⟨hb, ht, hm, hc⟩ := run_ok_cases function x_lower x_upper x_guess abs_tolerance
    max_iterations x n h
  rcases hc with ⟨-, -, hlen⟩ | ⟨hs, hg, hl⟩
  · exact Or.inl hlen
  · rw [run_eq_loop function x_lower x_upper x_guess abs_tolerance max_iterations hb ht hm hs hg]
    obtain ⟨k, t, -, -, hn, hcases⟩ := loop_ok_cases function abs_tolerance x n _ _ _ _ hl
    rcases hcases with ⟨-, hlen⟩ | ⟨hi, hlen⟩
    · left
      rw [hlen, hn]; simp
    · right
      refine ⟨by rw [hn]; omega, (iterate_exactZero function abs_tolerance t x hi).1, ?_⟩
      rw [hlen, hn]; simp

/-- C8, at a failing input: on `x ↦ x - 1` over `[0, 4]` with guess `3`,
tolerance `1/2` and budget `5`, the evaluator is called four times (at `0`, `4`,
`3` and `1`) and the call returns `(1, 3)`: the count returned on the
exact-zero exit inside the loop is one less than the number of evaluations. -/
theorem count_misses_last_evaluation :
    (DoNewtonWithBisectionFallback (fun x : ℚ => (x - 1, 1)) 0 4 3 (1 / 2) 5).result
        = .ok (1, 3) ∧
    (DoNewtonWithBisectionFallback (fun x : ℚ => (x - 1, 1)) 0 4 3 (1 / 2) 5).evals
        = [0, 4, 3, 1] ∧
    ((DoNewtonWithBisectionFallback (fun x : ℚ => (x - 1, 1)) 0 4 3 (1 / 2) 5).evals.length : Int)
        ≠ 3 := by
  norm_num [DoNewtonWithBisectionFallback, loop, iterate, takeStep, newton_is_slow,
    do_newton, do_bisection, outside_bracket, updateBracket, initState, abs_lt]

/-- Exact reading of C10: for a call whose arguments pass the precondition checks and whose
endpoint values have strictly opposite sign, at the start of the loop and
after every completed iteration the cached `f_lower` and `f_upper` are the
evaluator's values at `x_lower` and `x_upper`, they have strictly opposite
sign or one of them is zero, and `x_lower ≤ x_upper`. -/
theorem bracket_invariant (function : α → α × α)
    (x_lower x_upper x_guess abs_tolerance : α)
    (hb : x_lower ≤ x_guess ∧ x_guess ≤ x_upper)
    (hs : OppositeSign (function x_lower).1 (function x_upper).1)
    (k : Nat) (s : LoopState α)
    (h : stateAfter function abs_tolerance k (initState function x_lower x_upper x_guess)
      = some s) :
    s.f_lower = (function s.x_lower).1 ∧ s.f_upper = (function s.x_upper).1 ∧
    (OppositeSign s.f_lower s.f_upper ∨ s.f_lower = 0 ∨ s.f_upper = 0) ∧
    s.x_lower ≤ s.x_upper := by
  have hinv := stateAfter_inv function abs_tolerance x_lower x_upper k _ s
    (initState_inv function x_lower x_upper x_guess hb hs) h
  exact ⟨hinv.f_lower_eq, hinv.f_upper_eq, Or.inl hinv.sign, hinv.le_root.trans hinv.root_le⟩

/-- Exact reading of C10 on `x ↦ x² - 2` over `[0, 2]` with guess `1`: after the first iteration
the bracket is `[0, 3/2]` with cached values `-2` and `1/4`. -/
theorem bracket_invariant_witness :
    stateAfter (fun x : ℚ => (x ^ 2 - 2, 2 * x)) (1 / 10 ^ 10) 1
        (initState (fun x : ℚ => (x ^ 2 - 2, 2 * x)) 0 2 1)
      = some ⟨0, 3 / 2, -2, 1 / 4, 3 / 2, -1 / 2, 1 / 4, 3⟩ ∧
    ((-2 : ℚ) = ((fun x : ℚ => (x ^ 2 - 2, 2 * x)) 0).1 ∧
      (1 / 4 : ℚ) = ((fun x : ℚ => (x ^ 2 - 2, 2 * x)) (3 / 2)).1 ∧
      (OppositeSign (-2 : ℚ) (1 / 4) ∨ (-2 : ℚ) = 0 ∨ (1 / 4 : ℚ) = 0) ∧
      (0 : ℚ) ≤ 3 / 2) :=
  have h : stateAfter (fun x : ℚ => (x ^ 2 - 2, 2 * x)) (1 / 10 ^ 10) 1
        (initState (fun x : ℚ => (x ^ 2 - 2, 2 * x)) 0 2 1)
      = some ⟨0, 3 / 2, -2, 1 / 4, 3 / 2, -1 / 2, 1 / 4, 3⟩ := by
    norm_num [stateAfter, iterate, takeStep, newton_is_slow,
      do_newton, do_bisection, outside_bracket, updateBracket, initState, abs_lt]
  ⟨h, bracket_invariant (fun x : ℚ => (x ^ 2 - 2, 2 * x)) 0 2 1 (1 / 10 ^ 10)
    (by norm_num) (Or.inl (by norm_num)) 1 _ h⟩

/-- Exact reading of C4: for every bracket width `W ≥ 0` and every tolerance `abs_tolerance > 0`
there is an iteration budget `N`, fixed by `W` and `abs_tolerance` alone, such
that every call on a bracket of width `W` whose endpoint values are nonzero
with strictly opposite sign, with any evaluator and any guess in the bracket,
returns a result as soon as `max_iterations ≥ N`. -/
theorem guaranteed_convergence [Archimedean α] (W abs_tolerance : α) (hW : 0 ≤ W)
    (ht : 0 < abs_tolerance) :
    ∃ N : Int, ∀ (function : α → α × α) (x_lower x_upper x_guess : α) (max_iterations : Int),
      x_upper - x_lower = W → x_lower ≤ x_guess → x_guess ≤ x_upper →
      OppositeSign (function x_lower).1 (function x_upper).1 →
      N ≤ max_iterations →
      ∃ (x : α) (n : Int),
        (DoNewtonWithBisectionFallback function x_lower x_upper x_guess abs_tolerance
          max_iterations).result = .ok (x, n) := by
  obtain ⟨a, ha⟩ := pow_unbounded_of_one_lt (W / abs_tolerance) (one_lt_two)
  rw [div_lt_iff₀ ht] at ha
  refine ⟨((a * a + a + 1 : Nat) : Int) + 2, ?_⟩
  intro function x_lower x_upper x_guess max_iterations hw h1 h2 hs hN
  have hm : 0 < max_iterations := by omega
  by_cases hg : (function x_guess).1 = 0
  · exact ⟨x_guess, 3, by rw [run_of_guess_zero function x_lower x_upper x_guess
      abs_tolerance max_iterations ⟨h1, h2⟩ ht hm hs hg]⟩
  · rw [run_eq_loop function x_lower x_upper x_guess abs_tolerance max_iterations
      ⟨h1, h2⟩ ht hm hs hg]
    refine loop_returns function abs_tolerance _ a a 3 _ _ h1 h2 hg ?_ ?_ (by omega)
    · show x_upper - x_lower < abs_tolerance * 2 ^ a
      rw [hw, mul_comm]; exact ha
    · show |x_lower - x_upper| < abs_tolerance * 2 ^ a
      rw [abs_of_nonpos (by linarith)]
      have : -(x_lower - x_upper) = W := by rw [← hw]; ring
      rw [this, mul_comm]; exact ha

/-- Exact reading of C4 at width `2` and tolerance `1/10` over the rationals, applied to
`x ↦ x² - 2` on `[0, 2]` with guess `1`: with the budget `N` of the theorem the
call returns a result. -/
theorem guaranteed_convergence_witness :
    ∃ N : Int, ∃ (x : ℚ) (n : Int),
      (DoNewtonWithBisectionFallback (fun x : ℚ => (x ^ 2 - 2, 2 * x)) 0 2 1 (1 / 10)
        N).result = .ok (x, n) :=
  (guaranteed_convergence (2 : ℚ) (1 / 10) (by norm_num) (by norm_num)).imp
    fun N hN => hN (fun x : ℚ => (x ^ 2 - 2, 2 * x)) 0 2 1 N (by norm_num) (by norm_num)
      (by norm_num) (Or.inl (by norm_num)) (le_refl N)

/-- C9: on `x ↦ (x² - 2, 2x)` over `[0, 2]` with guess `1`, tolerance `10⁻¹⁰` and
budget `60`, the call succeeds after four accepted Newton steps with the count
`7 < 60` and a root within `10⁻¹⁰` of `√2`; the evaluator was called at
`0, 2, 1, 3/2, 17/12, 577/408, 665857/470832`. -/
theorem worked_example_sqrt_two :
    DoNewtonWithBisectionFallback (fun x : ℚ => (x ^ 2 - 2, 2 * x)) 0 2 1 (1 / 10 ^ 10) 60
      = ⟨.ok (886731088897 / 627013566048, 7),
          [0, 2, 1, 3 / 2, 17 / 12, 577 / 408, 665857 / 470832]⟩ ∧
    |((886731088897 / 627013566048 : ℚ) : ℝ) - Real.sqrt 2| < 1 / 10 ^ 10 ∧
    (7 : Int) < 60 := by
  refine ⟨?_, ?_, by norm_num⟩
  · have h0 : iterate (fun x : ℚ => (x ^ 2 - 2, 2 * x)) (1 / 10 ^ 10)
        (initState (fun x : ℚ => (x ^ 2 - 2, 2 * x)) 0 2 1)
        = .next ⟨0, 3 / 2, -2, 1 / 4, 3 / 2, -1 / 2, 1 / 4, 3⟩ := by
      norm_num [iterate, takeStep, newton_is_slow, do_newton, do_bisection, outside_bracket,
        updateBracket, initState, abs_div, abs_mul, abs_neg, Nat.abs_ofNat, abs_one]
    have h1 : iterate (fun x : ℚ => (x ^ 2 - 2, 2 * x)) (1 / 10 ^ 10)
        ⟨0, 3 / 2, -2, 1 / 4, 3 / 2, -1 / 2, 1 / 4, 3⟩
        = .next ⟨0, 17 / 12, -2, 1 / 144, 17 / 12, 1 / 12, 1 / 144, 17 / 6⟩ := by
      norm_num [iterate, takeStep, newton_is_slow, do_newton, do_bisection, outside_bracket,
        updateBracket, abs_div, abs_mul, abs_neg, Nat.abs_ofNat, abs_one]
    have h2 : iterate (fun x : ℚ => (x ^ 2 - 2, 2 * x)) (1 / 10 ^ 10)
        ⟨0, 17 / 12, -2, 1 / 144, 17 / 12, 1 / 12, 1 / 144, 17 / 6⟩
        = .next ⟨0, 577 / 408, -2, 1 / 166464, 577 / 408, 1 / 408, 1 / 166464, 577 / 204⟩ := by
      norm_num [iterate, takeStep, newton_is_slow, do_newton, do_bisection, outside_bracket,
        updateBracket, abs_div, abs_mul, abs_neg, Nat.abs_ofNat, abs_one]
    have h3 : iterate (fun x : ℚ => (x ^ 2 - 2, 2 * x)) (1 / 10 ^ 10)
        ⟨0, 577 / 408, -2, 1 / 166464, 577 / 408, 1 / 408, 1 / 166464, 577 / 204⟩
        = .next ⟨0, 665857 / 470832, -2, 1 / 221682772224, 665857 / 470832, 1 / 470832,
            1 / 221682772224, 665857 / 235416⟩ := by
      norm_num [iterate, takeStep, newton_is_slow, do_newton, do_bisection, outside_bracket,
        updateBracket, abs_div, abs_mul, abs_neg, Nat.abs_ofNat, abs_one]
    have h4 : iterate (fun x : ℚ => (x ^ 2 - 2, 2 * x)) (1 / 10 ^ 10)
        ⟨0, 665857 / 470832, -2, 1 / 221682772224, 665857 / 470832, 1 / 470832,
            1 / 221682772224, 665857 / 235416⟩
        = .converged (886731088897 / 627013566048) := by
      norm_num [iterate, takeStep, newton_is_slow, do_newton, do_bisection, outside_bracket,
        updateBracket, abs_div, abs_mul, abs_neg, Nat.abs_ofNat, abs_one]
    have hfuel : ((60 : Int) - 2).toNat = 53 + 1 + 1 + 1 + 1 + 1 := by decide
    rw [run_eq_loop _ _ _ _ _ _ (by norm_num) (by norm_num) (by norm_num)
      (Or.inl (by norm_num)) (by norm_num), hfuel,
      loop_of_next _ _ _ _ _ _ _ h0, loop_of_next _ _ _ _ _ _ _ h1,
      loop_of_next _ _ _ _ _ _ _ h2, loop_of_next _ _ _ _ _ _ _ h3,
      loop_of_converged _ _ _ _ _ _ _ h4]
    norm_num
  · rw [abs_lt]
    constructor
    · have : Real.sqrt 2 < ((886731088897 / 627013566048 : ℚ) : ℝ) + 1 / 10 ^ 10 := by
        rw [Real.sqrt_lt' (by push_cast; norm_num)]
        push_cast; norm_num
      linarith
    · have : ((886731088897 / 627013566048 : ℚ) : ℝ) - 1 / 10 ^ 10 < Real.sqrt 2 := by
        rw [Real.lt_sqrt (by push_cast; norm_num)]
        push_cast; norm_num
      linarith

end Success

/-! ## Accuracy against the true root of a continuous function -/

section Accuracy

/-- A continuous real function with values of strictly opposite sign at the
ends of an interval has a zero strictly inside it. -/
theorem exists_root_of_oppositeSign (f : ℝ → ℝ) (hf : Continuous f) (a b : ℝ) (hab : a ≤ b)
    (hs : OppositeSign (f a) (f b)) : ∃ c : ℝ, a < c ∧ c < b ∧ f c = 0 := by
  have key : ∃ c ∈ Set.Icc a b, f c = 0 := by
    rcases hs with ⟨h1, h2⟩ | ⟨h1, h2⟩
    · exact intermediate_value_Icc hab hf.continuousOn ⟨h1.le, h2.le⟩
    · exact intermediate_value_Icc' hab hf.continuousOn ⟨h2.le, h1.le⟩
  obtain ⟨c, ⟨hc1, hc2⟩, hc⟩ := key
  have hfa : f a ≠ 0 := by rcases hs with ⟨h1, _⟩ | ⟨h1, _⟩ <;> [exact h1.ne; exact h1.ne.symm]
  have hfb : f b ≠ 0 := by rcases hs with ⟨_, h2⟩ | ⟨_, h2⟩ <;> [exact h2.ne.symm; exact h2.ne]
  refine ⟨c, lt_of_le_of_ne hc1 ?_, lt_of_le_of_ne hc2 ?_, hc⟩
  · intro h; rw [← h] at hc; exact hfa hc
  · intro h; rw [h] at hc; exact hfb hc

/-- Exact part of the amended C5: for a continuous `f` whose only zero in `[x_lower, x_upper]`
is `r`, with endpoint values of strictly opposite sign, a successful call
returns either `r` itself, or the iterate `x` of its final step; then `r` lies
strictly inside the final bracket, `x` lies in it, `x` is closer than
`abs_tolerance` to the previous iterate, and when the final step is a
bisection step `x` is closer than `abs_tolerance` to `r`. -/
theorem returned_root_accuracy (f df : ℝ → ℝ) (r x_lower x_upper x_guess abs_tolerance : ℝ)
    (max_iterations : Int) (x : ℝ) (n : Int) (hf : Continuous f)
    (hroot : ∀ y : ℝ, x_lower ≤ y → y ≤ x_upper → (f y = 0 ↔ y = r))
    (hs : OppositeSign (f x_lower) (f x_upper))
    (h : (DoNewtonWithBisectionFallback (fun y => (f y, df y)) x_lower x_upper x_guess
      abs_tolerance max_iterations).result = .ok (x, n)) :
    x = r ∨
    (3 ≤ n ∧ ∃ s : LoopState ℝ,
      stateAfter (fun y => (f y, df y)) abs_tolerance (n - 3).toNat
        (initState (fun y => (f y, df y)) x_lower x_upper x_guess) = some s ∧
      x = (takeStep s).1 ∧ |x - s.root| < abs_tolerance ∧
      (s.x_lower < r ∧ r < s.x_upper) ∧ (s.x_lower ≤ x ∧ x ≤ s.x_upper) ∧
      (takesBisection s = true → |x - r| < abs_tolerance)) := by
  obtain ⟨hb, -, -, hc⟩ := run_ok_cases (fun y => (f y, df y)) x_lower x_upper x_guess
    abs_tolerance max_iterations x n h
  rcases hc with ⟨h0, hx, -⟩ | ⟨-, -, hl⟩
  · have hin : x_lower ≤ x ∧ x ≤ x_upper := by
      rcases hx with hx | hx | hx
      · rw [hx]; exact ⟨le_refl _, hb.1.trans hb.2⟩
      · rw [hx]; exact ⟨hb.1.trans hb.2, le_refl _⟩
      · rw [hx]; exact hb
    exact Or.inl ((hroot x hin.1 hin.2).mp h0)
  · obtain ⟨k, t, -, hst, hn, hcases⟩ :=
      loop_ok_cases (fun y => (f y, df y)) abs_tolerance x n _ _ _ _ hl
    rcases hcases with ⟨hi, -⟩ | ⟨hi, -⟩
    · right
      obtain ⟨hlt, hx⟩ := iterate_converged (fun y => (f y, df y)) abs_tolerance t x hi
      have hinv := stateAfter_inv (fun y => (f y, df y)) abs_tolerance x_lower x_upper k _ t
        (initState_inv (fun y => (f y, df y)) x_lower x_upper x_guess hb hs) hst
      have hle : t.x_lower ≤ t.x_upper := hinv.le_root.trans hinv.root_le
      have hsign : OppositeSign (f t.x_lower) (f t.x_upper) := by
        have := hinv.sign
        rwa [hinv.f_lower_eq, hinv.f_upper_eq] at this
      obtain ⟨c, hc1, hc2, hc0⟩ := exists_root_of_oppositeSign f hf t.x_lower t.x_upper hle hsign
      have hcr : c = r := (hroot c (hinv.lower_le.trans hc1.le) (hc2.le.trans hinv.le_upper)).mp hc0
      rw [hcr] at hc1 hc2
      have hmem := takeStep_mem t hle
      have hk : (n - 3).toNat = k := by rw [hn]; simp
      refine ⟨by rw [hn]; omega, t, by rw [hk]; exact hst, hx, ?_, ⟨hc1, hc2⟩, ?_, ?_⟩
      · rw [hx]
        exact lt_of_le_of_lt (takeStep_dist t hinv.le_root hinv.root_le) hlt
      · rw [hx]; exact hmem
      · intro hbis
        rw [takeStep_of_bisection t hbis, do_bisection_snd, abs_lt] at hlt
        rw [hx, takeStep_of_bisection t hbis, do_bisection_fst, abs_lt]
        constructor <;> linarith
    · obtain ⟨h0, hx⟩ := iterate_exactZero (fun y => (f y, df y)) abs_tolerance t x hi
      have hbr := stateAfter_bracket (fun y => (f y, df y)) abs_tolerance x_lower x_upper k _ t
        ⟨le_refl _, hb.1, hb.2, le_refl _⟩ hst
      have hmem := takeStep_mem t (hbr.2.1.trans hbr.2.2.1)
      rw [← hx] at hmem
      exact Or.inl ((hroot x (hbr.1.trans hmem.1) (hmem.2.trans hbr.2.2.2)).mp h0)

/-- Exact part of the amended C5, on `x ↦ x² - 9` with root `3` over `[0, 4]`, guess `1` and
tolerance `3`: the first iteration bisects to `2` and returns it. -/
theorem returned_root_accuracy_witness :
    (2 : ℝ) = 3 ∨
    ((3 : Int) ≤ 3 ∧ ∃ s : LoopState ℝ,
      stateAfter (fun y : ℝ => (y ^ 2 - 9, 2 * y)) 3 ((3 : Int) - 3).toNat
        (initState (fun y : ℝ => (y ^ 2 - 9, 2 * y)) 0 4 1) = some s ∧
      (2 : ℝ) = (takeStep s).1 ∧ |(2 : ℝ) - s.root| < 3 ∧
      (s.x_lower < 3 ∧ 3 < s.x_upper) ∧ (s.x_lower ≤ 2 ∧ 2 ≤ s.x_upper) ∧
      (takesBisection s = true → |(2 : ℝ) - 3| < 3)) :=
  returned_root_accuracy (fun y => y ^ 2 - 9) (fun y => 2 * y) 3 0 4 1 3 3 2 3
    (by fun_prop)
    (by
      intro y h0 _
      constructor
      · intro hy
        have hy2 : y ^ 2 - 9 = 0 := hy
        have h1 : (y - 3) * (y + 3) = 0 := by ring_nf; linarith
        rcases mul_eq_zero.mp h1 with h2 | h2 <;> linarith
      · intro hy
        rw [hy]; norm_num)
    (Or.inl ⟨by norm_num, by norm_num⟩)
    (by
      norm_num [DoNewtonWithBisectionFallback, loop, iterate, takeStep, newton_is_slow,
        do_newton, do_bisection, outside_bracket, updateBracket, initState, abs_lt])

/-- C5 fails as stated: `f(x) = x³ + x` is smooth with derivative `3x² + 1`, its
only zero is the simple root `0`, and its values at `-3` and `3` have strictly
opposite sign; with guess `3`, tolerance `3/2` and budget `3` the first
iteration accepts the Newton step of length `15/14 < 3/2` and the call returns
`27/14`, at distance `27/14 ≥ 3/2` from the root. -/
theorem accuracy_counterexample :
    ContDiff ℝ ⊤ (fun y : ℝ => y ^ 3 + y) ∧
    (∀ y : ℝ, HasDerivAt (fun y : ℝ => y ^ 3 + y) (3 * y ^ 2 + 1) y) ∧
    (∀ y : ℝ, y ^ 3 + y = 0 ↔ y = 0) ∧
    (3 * (0 : ℝ) ^ 2 + 1 ≠ 0) ∧
    OppositeSign ((-3 : ℝ) ^ 3 + (-3)) ((3 : ℝ) ^ 3 + 3) ∧
    takesBisection (initState (fun y : ℝ => (y ^ 3 + y, 3 * y ^ 2 + 1)) (-3) 3 3) = false ∧
    (DoNewtonWithBisectionFallback (fun y : ℝ => (y ^ 3 + y, 3 * y ^ 2 + 1))
      (-3) 3 3 (3 / 2) 3).result = .ok (27 / 14, 3) ∧
    ¬ |(27 / 14 : ℝ) - 0| < 3 / 2 := by
  refine ⟨by fun_prop, ?_, ?_, by norm_num, Or.inl ⟨by norm_num, by norm_num⟩, ?_, ?_, ?_⟩
  · intro y
    simpa using (hasDerivAt_pow 3 y).add (hasDerivAt_id y)
  · intro y
    constructor
    · intro hy
      have h1 : y * (y ^ 2 + 1) = 0 := by ring_nf; ring_nf at hy; linarith
      rcases mul_eq_zero.mp h1 with h2 | h2
      · exact h2
      · nlinarith [sq_nonneg y]
    · intro hy
      rw [hy]; norm_num
  · norm_num [takesBisection, newton_is_slow, outside_bracket, do_newton, initState,
      abs_div, abs_mul, abs_neg, Nat.abs_ofNat, abs_one]
  · norm_num [DoNewtonWithBisectionFallback, loop, iterate, takeStep, newton_is_slow,
      do_newton, do_bisection, outside_bracket, updateBracket, initState, abs_lt]
  · norm_num [abs_lt]

end Accuracy

/-! ## Single loop iterations -/

section Iterations

variable {α : Type} [LinearOrderedField α]

/-- Exact reading of C11: across a completed loop iteration of a call with `x_guess` in the
bracket, the width `x_upper - x_lower` does not increase; the new iterate
replaces one end of the bracket, and the width strictly decreases when the new
iterate differs from the end it replaces, in particular when it differs from
both ends. -/
theorem bracket_shrinks (function : α → α × α) (x_lower x_upper x_guess abs_tolerance : α)
    (hb : x_lower ≤ x_guess ∧ x_guess ≤ x_upper) (k : Nat) (s t : LoopState α)
    (hs : stateAfter function abs_tolerance k (initState function x_lower x_upper x_guess)
      = some s)
    (hi : iterate function abs_tolerance s = .next t) :
    t.x_upper - t.x_lower ≤ s.x_upper - s.x_lower ∧
    ((t.x_lower = t.root ∧ t.x_upper = s.x_upper ∧
        (t.root ≠ s.x_lower → t.x_upper - t.x_lower < s.x_upper - s.x_lower)) ∨
     (t.x_lower = s.x_lower ∧ t.x_upper = t.root ∧
        (t.root ≠ s.x_upper → t.x_upper - t.x_lower < s.x_upper - s.x_lower))) ∧
    (t.root ≠ s.x_lower → t.root ≠ s.x_upper →
      t.x_upper - t.x_lower < s.x_upper - s.x_lower) := by
  have hbr := stateAfter_bracket function abs_tolerance x_lower x_upper k _ s
    ⟨le_refl _, hb.1, hb.2, le_refl _⟩ hs
  have hm := takeStep_mem s (hbr.2.1.trans hbr.2.2.1)
  obtain ⟨-, -, ht⟩ := iterate_next function abs_tolerance s t hi
  obtain ⟨hroot, -, -, -, hcases⟩ := updateBracket_cases s (takeStep s).1 (takeStep s).2
    (function (takeStep s).1).1 (function (takeStep s).1).2
  rw [← ht] at hroot hcases
  rw [← hroot] at hm hcases
  rcases hcases with ⟨e1, e2⟩ | ⟨e1, e2⟩
  · have hstrict : t.root ≠ s.x_lower → t.x_upper - t.x_lower < s.x_upper - s.x_lower := by
      intro hne
      have := lt_of_le_of_ne hm.1 (Ne.symm hne)
      rw [e1, e2]; linarith
    exact ⟨by rw [e1, e2]; linarith [hm.1], Or.inl ⟨e1, e2, hstrict⟩, fun h1 _ => hstrict h1⟩
  · have hstrict : t.root ≠ s.x_upper → t.x_upper - t.x_lower < s.x_upper - s.x_lower := by
      intro hne
      have := lt_of_le_of_ne hm.2 hne
      rw [e1, e2]; linarith
    exact ⟨by rw [e1, e2]; linarith [hm.2], Or.inr ⟨e1, e2, hstrict⟩, fun _ h2 => hstrict h2⟩

/-- Exact reading of C11 on `x ↦ x² - 2` over `[0, 2]` with guess `1`: the first iteration moves
the upper end from `2` to `3/2`, and the width drops from `2` to `3/2`. -/
theorem bracket_shrinks_witness :
    iterate (fun x : ℚ => (x ^ 2 - 2, 2 * x)) (1 / 10 ^ 10)
        (initState (fun x : ℚ => (x ^ 2 - 2, 2 * x)) 0 2 1)
      = .next ⟨0, 3 / 2, -2, 1 / 4, 3 / 2, -1 / 2, 1 / 4, 3⟩ ∧
    (3 / 2 : ℚ) - 0 < 2 - 0 :=
  have h : iterate (fun x : ℚ => (x ^ 2 - 2, 2 * x)) (1 / 10 ^ 10)
        (initState (fun x : ℚ => (x ^ 2 - 2, 2 * x)) 0 2 1)
      = .next ⟨0, 3 / 2, -2, 1 / 4, 3 / 2, -1 / 2, 1 / 4, 3⟩ := by
    norm_num [iterate, takeStep, newton_is_slow, do_newton, do_bisection, outside_bracket,
      updateBracket, initState, abs_div, abs_mul, abs_neg, Nat.abs_ofNat, abs_one]
  ⟨h, (bracket_shrinks (fun x : ℚ => (x ^ 2 - 2, 2 * x)) 0 2 1 (1 / 10 ^ 10)
    (by norm_num) 0 _ _ rfl h).2.2 (by norm_num [initState]) (by norm_num [initState])⟩

/-- Exact reading of C14: in an iteration where Newton is not judged slow, a Newton candidate
`root - f/df` below `x_lower` or above `x_upper` is discarded and the step taken
is the bisection step, to the midpoint with `minus_dx = (x_lower - x_upper)/2`;
a candidate inside `[x_lower, x_upper]`, ends included, is taken unchanged with
`minus_dx = f/df`. -/
theorem newton_escape_fallback (s : LoopState α) (h : newton_is_slow s = false) :
    ((s.root - s.f / s.df < s.x_lower ∨ s.root - s.f / s.df > s.x_upper) →
      takeStep s = do_bisection s.x_lower s.x_upper ∧
      takeStep s = ((s.x_lower + s.x_upper) / 2, (1 / 2) * (s.x_lower - s.x_upper))) ∧
    ((s.x_lower ≤ s.root - s.f / s.df ∧ s.root - s.f / s.df ≤ s.x_upper) →
      takeStep s = (s.root - s.f / s.df, s.f / s.df)) := by
  constructor
  · intro hout
    have hb : takesBisection s = true := by
      simp only [takesBisection, h, Bool.false_or, outside_bracket, do_newton,
        decide_eq_true_eq]
      exact hout
    rw [takeStep_of_bisection s hb]
    refine ⟨rfl, ?_⟩
    ext
    · exact do_bisection_fst _ _
    · simp only [do_bisection]
  · intro hin
    have hb : takesBisection s = false := by
      simp only [takesBisection, h, Bool.false_or, outside_bracket, do_newton,
        decide_eq_false_iff_not, not_or, not_lt]
      exact hin
    rw [takeStep_of_newton s hb]
    rfl

/-- Exact reading of C14 on two states over `[0, 4]` with the seed `minus_dx = -4`: from the iterate
`1/10` with `f = df = 1` the candidate `-9/10` leaves the bracket and the midpoint
`2` is taken; from the iterate `3` with `f = 2`, `df = 1` the candidate `1` is
taken. -/
theorem newton_escape_fallback_witness :
    takeStep (⟨0, 4, -1, 1, 1 / 10, -4, 1, 1⟩ : LoopState ℚ)
      = (((0 : ℚ) + 4) / 2, (1 / 2) * ((0 : ℚ) - 4)) ∧
    takeStep (⟨0, 4, -1, 3, 3, -4, 2, 1⟩ : LoopState ℚ) = ((3 : ℚ) - 2 / 1, (2 : ℚ) / 1) :=
  ⟨((newton_escape_fallback (⟨0, 4, -1, 1, 1 / 10, -4, 1, 1⟩ : LoopState ℚ)
      (by norm_num [newton_is_slow, abs_div, abs_mul, abs_neg, Nat.abs_ofNat, abs_one])).1
      (Or.inl (by norm_num))).2,
   (newton_escape_fallback (⟨0, 4, -1, 3, 3, -4, 2, 1⟩ : LoopState ℚ)
      (by norm_num [newton_is_slow, abs_div, abs_mul, abs_neg, Nat.abs_ofNat, abs_one])).2
      ⟨by norm_num, by norm_num⟩⟩

/-- Exact reading of C15: in a call that enters the loop (the value at `x_guess` is nonzero), at
the start of every iteration the current value `f` is nonzero; if the current
derivative `df` is zero the slowness test is true and the bisection step is
taken; so whenever the Newton quotient `f / df` is computed, `df ≠ 0`. -/
theorem no_division_by_zero (function : α → α × α) (x_lower x_upper x_guess abs_tolerance : α)
    (hg : (function x_guess).1 ≠ 0) (k : Nat) (s : LoopState α)
    (hs : stateAfter function abs_tolerance k (initState function x_lower x_upper x_guess)
      = some s) :
    s.f ≠ 0 ∧
    (s.df = 0 → newton_is_slow s = true ∧ takeStep s = do_bisection s.x_lower s.x_upper) ∧
    (newton_is_slow s = false → s.df ≠ 0) := by
  have hf : s.f ≠ 0 := stateAfter_f_ne function abs_tolerance k _ s hg hs
  refine ⟨hf, ?_, df_ne_zero_of_newton s hf⟩
  intro h0
  have hslow : newton_is_slow s = true := by
    by_contra hcon
    rw [Bool.not_eq_true] at hcon
    exact df_ne_zero_of_newton s hf hcon h0
  exact ⟨hslow, takeStep_of_bisection s (by simp [takesBisection, hslow])⟩

/-- Exact reading of C15 on `x ↦ -x² + 8x - 7` over `[0, 4]` with guess `4`, where the derivative
`8 - 2x` vanishes: the first iteration is slow and bisects. -/
theorem no_division_by_zero_witness :
    (initState (fun x : ℚ => (-x ^ 2 + 8 * x - 7, 8 - 2 * x)) 0 4 4).f ≠ 0 ∧
    ((initState (fun x : ℚ => (-x ^ 2 + 8 * x - 7, 8 - 2 * x)) 0 4 4).df = 0 →
      newton_is_slow (initState (fun x : ℚ => (-x ^ 2 + 8 * x - 7, 8 - 2 * x)) 0 4 4) = true ∧
      takeStep (initState (fun x : ℚ => (-x ^ 2 + 8 * x - 7, 8 - 2 * x)) 0 4 4)
        = do_bisection (0 : ℚ) 4) ∧
    (newton_is_slow (initState (fun x : ℚ => (-x ^ 2 + 8 * x - 7, 8 - 2 * x)) 0 4 4) = false →
      (initState (fun x : ℚ => (-x ^ 2 + 8 * x - 7, 8 - 2 * x)) 0 4 4).df ≠ 0) :=
  no_division_by_zero (fun x : ℚ => (-x ^ 2 + 8 * x - 7, 8 - 2 * x)) 0 4 4 (1 / 10)
    (by norm_num) 0 _ rfl

/-- Exact reading of C17: when an iteration takes the bisection step, the new iterate
`x_lower - (1/2)(x_lower - x_upper)` is the midpoint `(x_lower + x_upper)/2`, and
if the iteration goes on to the bracket update the new width is exactly half
the old one. -/
theorem bisection_halves_bracket (function : α → α × α) (abs_tolerance : α) (s : LoopState α)
    (hb : takesBisection s = true) :
    (takeStep s).1 = s.x_lower - (1 / 2) * (s.x_lower - s.x_upper) ∧
    (takeStep s).1 = (s.x_lower + s.x_upper) / 2 ∧
    ∀ t : LoopState α, iterate function abs_tolerance s = .next t →
      t.root = (s.x_lower + s.x_upper) / 2 ∧
      t.x_upper - t.x_lower = (s.x_upper - s.x_lower) / 2 := by
  have h1 : (takeStep s).1 = (s.x_lower + s.x_upper) / 2 := by
    rw [takeStep_of_bisection s hb, do_bisection_fst]
  refine ⟨by rw [takeStep_of_bisection s hb]; rfl, h1, ?_⟩
  intro t hi
  obtain ⟨-, -, ht⟩ := iterate_next function abs_tolerance s t hi
  obtain ⟨hroot, -, -, -, hcases⟩ := updateBracket_cases s (takeStep s).1 (takeStep s).2
    (function (takeStep s).1).1 (function (takeStep s).1).2
  rw [← ht, h1] at hroot hcases
  refine ⟨hroot, ?_⟩
  rcases hcases with ⟨e1, e2⟩ | ⟨e1, e2⟩
  · rw [e1, e2]; ring
  · rw [e1, e2]; ring

/-- Exact reading of C17 on `x ↦ x² - 9` over `[0, 4]` with guess `1` and tolerance `1/10`: the
first iteration bisects to `2` and the bracket becomes `[2, 4]`. -/
theorem bisection_halves_bracket_witness :
    iterate (fun x : ℚ => (x ^ 2 - 9, 2 * x)) (1 / 10)
        (initState (fun x : ℚ => (x ^ 2 - 9, 2 * x)) 0 4 1)
      = .next ⟨2, 4, -5, 7, 2, -2, -5, 4⟩ ∧
    ((2 : ℚ) = ((0 : ℚ) + 4) / 2 ∧ (4 : ℚ) - 2 = ((4 : ℚ) - 0) / 2) :=
  have h : iterate (fun x : ℚ => (x ^ 2 - 9, 2 * x)) (1 / 10)
        (initState (fun x : ℚ => (x ^ 2 - 9, 2 * x)) 0 4 1)
      = .next ⟨2, 4, -5, 7, 2, -2, -5, 4⟩ := by
    norm_num [iterate, takeStep, newton_is_slow, do_newton, do_bisection, outside_bracket,
      updateBracket, initState, abs_div, abs_mul, abs_neg, Nat.abs_ofNat, abs_one]
  ⟨h, (bisection_halves_bracket (fun x : ℚ => (x ^ 2 - 9, 2 * x)) (1 / 10)
    (initState (fun x : ℚ => (x ^ 2 - 9, 2 * x)) 0 4 1)
    (by norm_num [takesBisection, newton_is_slow, initState, abs_div, abs_mul, abs_neg,
      Nat.abs_ofNat, abs_one])).2.2 _ h⟩

/-- Exact reading of C18: in a call that enters the loop with `x_guess` in the bracket, whenever
an iteration accepts the Newton step, the new `|minus_dx| = |f/df|` is at most
half of the `|minus_dx|` held at the start of that iteration, which in the first
iteration is the bracket width `x_upper - x_lower`. -/
theorem accepted_newton_halves_step (function : α → α × α)
    (x_lower x_upper x_guess abs_tolerance : α)
    (hb : x_lower ≤ x_guess ∧ x_guess ≤ x_upper) (hg : (function x_guess).1 ≠ 0)
    (k : Nat) (s : LoopState α)
    (hs : stateAfter function abs_tolerance k (initState function x_lower x_upper x_guess)
      = some s)
    (hn : takesBisection s = false) :
    (takeStep s).2 = s.f / s.df ∧ |(takeStep s).2| ≤ |s.minus_dx| / 2 ∧
    (k = 0 → |s.minus_dx| = x_upper - x_lower) := by
  have hf : s.f ≠ 0 := stateAfter_f_ne function abs_tolerance k _ s hg hs
  refine ⟨by rw [takeStep_of_newton s hn]; rfl, newton_step_le_half s hf hn, ?_⟩
  intro hk
  subst hk
  simp only [stateAfter, Option.some.injEq] at hs
  rw [← hs]
  simp only [initState]
  rw [abs_of_nonpos (by linarith [hb.1.trans hb.2])]
  ring

/-- Exact reading of C18 on `x ↦ x² - 2` over `[0, 2]` with guess `1`: the first iteration accepts
the Newton step `-1/2`, of length at most half the width `2`. -/
theorem accepted_newton_halves_step_witness :
    (takeStep (initState (fun x : ℚ => (x ^ 2 - 2, 2 * x)) 0 2 1)).2
      = (initState (fun x : ℚ => (x ^ 2 - 2, 2 * x)) 0 2 1).f
        / (initState (fun x : ℚ => (x ^ 2 - 2, 2 * x)) 0 2 1).df ∧
    |(takeStep (initState (fun x : ℚ => (x ^ 2 - 2, 2 * x)) 0 2 1)).2|
      ≤ |(initState (fun x : ℚ => (x ^ 2 - 2, 2 * x)) 0 2 1).minus_dx| / 2 ∧
    (0 = 0 → |(initState (fun x : ℚ => (x ^ 2 - 2, 2 * x)) 0 2 1).minus_dx| = (2 : ℚ) - 0) :=
  accepted_newton_halves_step (fun x : ℚ => (x ^ 2 - 2, 2 * x)) 0 2 1 (1 / 10 ^ 10)
    (by norm_num) (by norm_num) 0 _ rfl
    (by norm_num [takesBisection, newton_is_slow, do_newton, outside_bracket, initState,
      abs_div, abs_mul, abs_neg, Nat.abs_ofNat, abs_one])

/-- C16 fails as stated: on `x ↦ x² - 9` over `[0, 4]` the first iteration bisects
from the interior guess `1` to `2` and records `minus_dx = -2`, while
`x_prev - x_next = -1`; on `x ↦ -x² + 8x - 7` over `[0, 4]` it bisects from the
guess `4`, the upper end, to `2` and records `minus_dx = -2`, while
`x_prev - x_next = 2`. -/
theorem minus_dx_counterexample :
    iterate (fun x : ℚ => (x ^ 2 - 9, 2 * x)) (1 / 10)
        (initState (fun x : ℚ => (x ^ 2 - 9, 2 * x)) 0 4 1)
      = .next ⟨2, 4, -5, 7, 2, -2, -5, 4⟩ ∧
    (-2 : ℚ) ≠ 1 - 2 ∧
    iterate (fun x : ℚ => (-x ^ 2 + 8 * x - 7, 8 - 2 * x)) (1 / 10)
        (initState (fun x : ℚ => (-x ^ 2 + 8 * x - 7, 8 - 2 * x)) 0 4 4)
      = .next ⟨0, 2, -7, 5, 2, -2, 5, 4⟩ ∧
    (-2 : ℚ) ≠ 4 - 2 := by
  norm_num [iterate, takeStep, newton_is_slow, do_newton, do_bisection, outside_bracket,
    updateBracket, initState, abs_div, abs_mul, abs_neg, Nat.abs_ofNat, abs_one]

/-- Exact part of the amended C16: in a call with `x_guess` in the bracket, an accepted Newton
step records `minus_dx = x_prev - x_next`; a bisection step records
`minus_dx = x_lower - x_next = (x_lower - x_upper)/2`, which is `x_prev - x_next`
when the previous iterate is `x_lower` and `-(x_prev - x_next)` when it is
`x_upper`; in every case `|x_prev - x_next| ≤ |minus_dx|`, with equality after
the first iteration, when the previous iterate is one of the two ends. -/
theorem minus_dx_meaning (function : α → α × α) (x_lower x_upper x_guess abs_tolerance : α)
    (hb : x_lower ≤ x_guess ∧ x_guess ≤ x_upper) (k : Nat) (s : LoopState α)
    (hs : stateAfter function abs_tolerance k (initState function x_lower x_upper x_guess)
      = some s) :
    (takesBisection s = false → (takeStep s).2 = s.root - (takeStep s).1) ∧
    (takesBisection s = true →
      (takeStep s).2 = s.x_lower - (takeStep s).1 ∧
      (takeStep s).2 = (s.x_lower - s.x_upper) / 2 ∧
      (s.root = s.x_lower → (takeStep s).2 = s.root - (takeStep s).1) ∧
      (s.root = s.x_upper → (takeStep s).2 = -(s.root - (takeStep s).1))) ∧
    |s.root - (takeStep s).1| ≤ |(takeStep s).2| ∧
    (0 < k → (s.root = s.x_lower ∨ s.root = s.x_upper) ∧
      |s.root - (takeStep s).1| = |(takeStep s).2|) := by
  have hbr := stateAfter_bracket function abs_tolerance x_lower x_upper k _ s
    ⟨le_refl _, hb.1, hb.2, le_refl _⟩ hs
  have hnewton : takesBisection s = false → (takeStep s).2 = s.root - (takeStep s).1 := by
    intro hn
    rw [takeStep_of_newton s hn]
    simp only [do_newton]
    ring
  have hbis : takesBisection s = true →
      (takeStep s).2 = s.x_lower - (takeStep s).1 ∧
      (takeStep s).2 = (s.x_lower - s.x_upper) / 2 ∧
      (s.root = s.x_lower → (takeStep s).2 = s.root - (takeStep s).1) ∧
      (s.root = s.x_upper → (takeStep s).2 = -(s.root - (takeStep s).1)) := by
    intro hbs
    rw [takeStep_of_bisection s hbs, do_bisection_fst, do_bisection_snd]
    refine ⟨by ring, rfl, fun e => by rw [e]; ring, fun e => by rw [e]; ring⟩
  have hdist : |s.root - (takeStep s).1| ≤ |(takeStep s).2| := by
    rw [abs_sub_comm]
    exact takeStep_dist s hbr.2.1 hbr.2.2.1
  refine ⟨hnewton, hbis, hdist, ?_⟩
  intro hk
  obtain ⟨j, rfl⟩ : ∃ j, k = j + 1 := ⟨k - 1, by omega⟩
  have hend := (stateAfter_succ_step function abs_tolerance j _ s hs).2
  refine ⟨hend, ?_⟩
  cases hcase : takesBisection s with
  | false => rw [hnewton hcase]
  | true =>
    obtain ⟨-, -, h1, h2⟩ := hbis hcase
    rcases hend with e | e
    · rw [h1 e]
    · rw [h2 e, abs_neg]

/-- Exact part of the amended C16, on `x ↦ x² - 2` over `[0, 2]` with guess `1`, in the second
iteration: the previous iterate `3/2` is the upper end and the Newton step to
`17/12` records `minus_dx = 1/12 = 3/2 - 17/12`. -/
theorem minus_dx_meaning_witness :
    stateAfter (fun x : ℚ => (x ^ 2 - 2, 2 * x)) (1 / 10 ^ 10) 1
        (initState (fun x : ℚ => (x ^ 2 - 2, 2 * x)) 0 2 1)
      = some ⟨0, 3 / 2, -2, 1 / 4, 3 / 2, -1 / 2, 1 / 4, 3⟩ ∧
    takeStep (⟨0, 3 / 2, -2, 1 / 4, 3 / 2, -1 / 2, 1 / 4, 3⟩ : LoopState ℚ) = (17 / 12, 1 / 12) ∧
    (((3 / 2 : ℚ) = 0 ∨ (3 / 2 : ℚ) = 3 / 2) ∧
      |(3 / 2 : ℚ) - (takeStep (⟨0, 3 / 2, -2, 1 / 4, 3 / 2, -1 / 2, 1 / 4, 3⟩ : LoopState ℚ)).1|
        = |(takeStep (⟨0, 3 / 2, -2, 1 / 4, 3 / 2, -1 / 2, 1 / 4, 3⟩ : LoopState ℚ)).2|) :=
  have h : stateAfter (fun x : ℚ => (x ^ 2 - 2, 2 * x)) (1 / 10 ^ 10) 1
        (initState (fun x : ℚ => (x ^ 2 - 2, 2 * x)) 0 2 1)
      = some ⟨0, 3 / 2, -2, 1 / 4, 3 / 2, -1 / 2, 1 / 4, 3⟩ := by
    norm_num [stateAfter, iterate, takeStep, newton_is_slow, do_newton, do_bisection,
      outside_bracket, updateBracket, initState, abs_div, abs_mul, abs_neg, Nat.abs_ofNat,
      abs_one]
  ⟨h, by
    norm_num [takeStep, newton_is_slow, do_newton, do_bisection, outside_bracket,
      abs_div, abs_mul, abs_neg, Nat.abs_ofNat, abs_one],
    (minus_dx_meaning (fun x : ℚ => (x ^ 2 - 2, 2 * x)) 0 2 1 (1 / 10 ^ 10)
      (by norm_num) 1 _ h).2.2.2 (by norm_num)⟩

end Iterations

/-! ## Failures and bounded work -/

section Failures

variable {α : Type} [LinearOrderedField α]

/-- Exact reading of C12: the call fails with a precondition violation exactly when `x_guess` is
outside `[x_lower, x_upper]`, or the tolerance or the budget is not positive,
or these are fine and both endpoint values are nonzero without being of
strictly opposite sign; and a non-convergence failure occurs only for
arguments that pass the three checks and have endpoint values of strictly
opposite sign. -/
theorem error_kinds_characterised (function : α → α × α)
    (x_lower x_upper x_guess abs_tolerance : α) (max_iterations : Int) :
    ((DoNewtonWithBisectionFallback function x_lower x_upper x_guess abs_tolerance
        max_iterations).result = .error .precondition ↔
      ((x_guess < x_lower ∨ x_guess > x_upper ∨ abs_tolerance ≤ 0 ∨ max_iterations ≤ 0) ∨
       ((x_lower ≤ x_guess ∧ x_guess ≤ x_upper) ∧ 0 < abs_tolerance ∧ 0 < max_iterations ∧
         (function x_lower).1 ≠ 0 ∧ (function x_upper).1 ≠ 0 ∧
         ¬ OppositeSign (function x_lower).1 (function x_upper).1))) ∧
    (∀ step width : α,
      (DoNewtonWithBisectionFallback function x_lower x_upper x_guess abs_tolerance
        max_iterations).result = .error (.didNotConverge step width) →
      (x_lower ≤ x_guess ∧ x_guess ≤ x_upper) ∧ 0 < abs_tolerance ∧ 0 < max_iterations ∧
        OppositeSign (function x_lower).1 (function x_upper).1) := by
  have hsplit : ∀ P : Prop,
      ¬ ((x_lower ≤ x_guess ∧ x_guess ≤ x_upper) ∧ 0 < abs_tolerance ∧ 0 < max_iterations) →
      (x_guess < x_lower ∨ x_guess > x_upper ∨ abs_tolerance ≤ 0 ∨ max_iterations ≤ 0) ∨ P := by
    intro P hP
    left
    by_contra hcon
    simp only [not_or, not_lt, not_le, gt_iff_lt] at hcon
    exact hP ⟨⟨hcon.1, hcon.2.1⟩, hcon.2.2.1, hcon.2.2.2⟩
  have hbad : (x_guess < x_lower ∨ x_guess > x_upper ∨ abs_tolerance ≤ 0 ∨ max_iterations ≤ 0) →
      ¬ ((x_lower ≤ x_guess ∧ x_guess ≤ x_upper) ∧ 0 < abs_tolerance ∧ 0 < max_iterations) := by
    rintro (h | h | h | h) ⟨⟨h1, h2⟩, h3, h4⟩
    · exact absurd h1 (not_le.mpr h)
    · exact absurd h2 (not_le.mpr h)
    · exact absurd h3 (not_lt.mpr h)
    · exact absurd h4 (not_lt.mpr h)
  have hnz : ∀ a b : α, OppositeSign a b → a ≠ 0 ∧ b ≠ 0 := by
    rintro a b (⟨h1, h2⟩ | ⟨h1, h2⟩)
    · exact ⟨h1.ne, h2.ne.symm⟩
    · exact ⟨h1.ne.symm, h2.ne⟩
  rcases run_cases function x_lower x_upper x_guess abs_tolerance max_iterations with
    ⟨hP, hrun⟩ | ⟨hP, ⟨h0, hrun⟩ | ⟨hl, h0, hrun⟩ | ⟨hl, hu, hns, hrun⟩ | ⟨hs, h0, hrun⟩ |
      ⟨hs, hg, hrun⟩⟩
  · rw [hrun]
    refine ⟨⟨fun _ => hsplit _ hP, fun _ => rfl⟩, ?_⟩
    intro step width h
    simp at h
  · rw [hrun]
    refine ⟨⟨fun h => by simp at h, ?_⟩, fun step width h => by simp at h⟩
    rintro (h | ⟨-, -, -, hl, -⟩)
    · exact absurd hP (hbad h)
    · exact absurd h0 hl
  · rw [hrun]
    refine ⟨⟨fun h => by simp at h, ?_⟩, fun step width h => by simp at h⟩
    rintro (h | ⟨-, -, -, -, hu, -⟩)
    · exact absurd hP (hbad h)
    · exact absurd h0 hu
  · rw [hrun]
    refine ⟨⟨fun _ => Or.inr ⟨hP.1, hP.2.1, hP.2.2, hl, hu, hns⟩, fun _ => rfl⟩, ?_⟩
    intro step width h
    simp at h
  · rw [hrun]
    refine ⟨⟨fun h => by simp at h, ?_⟩, fun step width h => by simp at h⟩
    rintro (h | ⟨-, -, -, -, -, hns⟩)
    · exact absurd hP (hbad h)
    · exact absurd hs hns
  · rw [hrun]
    refine ⟨⟨?_, ?_⟩, fun _ _ _ => ⟨hP.1, hP.2.1, hP.2.2, hs⟩⟩
    · intro h
      rcases loop_result_cases function abs_tolerance (max_iterations - 2).toNat 3
        (initState function x_lower x_upper x_guess) [x_lower, x_upper, x_guess] with
        ⟨x, m, hok⟩ | ⟨t, -, herr⟩
      · rw [hok] at h; simp at h
      · rw [herr] at h; simp at h
    · rintro (h | ⟨-, -, -, -, -, hns⟩)
      · exact absurd hP (hbad h)
      · exact absurd hs hns

/-- Exact reading of C12 on `x ↦ x - 1/2` over `[0, 1]` with guess `1/4`, tolerance `5` and budget
`2`: the failure is a non-convergence, not a precondition violation, and the
arguments pass all checks with a sign change. -/
theorem error_kinds_characterised_witness :
    (DoNewtonWithBisectionFallback (fun x : ℚ => (x - 1 / 2, 1)) 0 1 (1 / 4) 5 2).result
        = .error (.didNotConverge 1 1) ∧
    (((0 : ℚ) ≤ 1 / 4 ∧ (1 / 4 : ℚ) ≤ 1) ∧ (0 : ℚ) < 5 ∧ (0 : Int) < 2 ∧
      OppositeSign ((fun x : ℚ => (x - 1 / 2, 1)) 0).1 ((fun x : ℚ => (x - 1 / 2, 1)) 1).1) :=
  have h : (DoNewtonWithBisectionFallback (fun x : ℚ => (x - 1 / 2, 1)) 0 1 (1 / 4) 5 2).result
      = .error (.didNotConverge 1 1) := by
    norm_num [DoNewtonWithBisectionFallback, loop, initState]
  ⟨h, (error_kinds_characterised (fun x : ℚ => (x - 1 / 2, 1)) 0 1 (1 / 4) 5 2).2 1 1 h⟩

/-- Exact reading of C19: the evaluator is called at most `max(3, max_iterations + 1)` times in
any call, a successful call returns a count `n` with
`1 ≤ n ≤ max(3, max_iterations)`, and with budget `1` or `2` the evaluator can
still be called three times and the count `3` returned. -/
theorem bounded_work (function : α → α × α)
    (x_lower x_upper x_guess abs_tolerance : α) (max_iterations : Int) :
    ((DoNewtonWithBisectionFallback function x_lower x_upper x_guess abs_tolerance
        max_iterations).evals.length : Int) ≤ max 3 (max_iterations + 1) ∧
    (∀ (x : α) (n : Int),
      (DoNewtonWithBisectionFallback function x_lower x_upper x_guess abs_tolerance
        max_iterations).result = .ok (x, n) → 1 ≤ n ∧ n ≤ max 3 max_iterations) ∧
    DoNewtonWithBisectionFallback (fun x : ℚ => (x - 1, 1)) 0 2 1 (1 / 2) 1
      = ⟨.ok (1, 3), [0, 2, 1]⟩ ∧
    DoNewtonWithBisectionFallback (fun x : ℚ => (x - 1, 1)) 0 2 1 (1 / 2) 2
      = ⟨.ok (1, 3), [0, 2, 1]⟩ := by
  refine ⟨?_, ?_, by norm_num [DoNewtonWithBisectionFallback],
    by norm_num [DoNewtonWithBisectionFallback]⟩
  · rcases run_cases function x_lower x_upper x_guess abs_tolerance max_iterations with
      ⟨-, hrun⟩ | ⟨hP, ⟨-, hrun⟩ | ⟨-, -, hrun⟩ | ⟨-, -, -, hrun⟩ | ⟨-, -, hrun⟩ | ⟨-, -, hrun⟩⟩
    · rw [hrun]; simp
    · rw [hrun]; simp
    · rw [hrun]; simp
    · rw [hrun]; simp
    · rw [hrun]; simp
    · rw [hrun]
      have hlen := loop_evals_length_le function abs_tolerance (max_iterations - 2).toNat 3
        (initState function x_lower x_upper x_guess) [x_lower, x_upper, x_guess]
      simp only [List.length_cons, List.length_nil] at hlen
      have hm := hP.2.2
      rw [le_max_iff]
      omega
  · intro x n h
    obtain ⟨-, -, hm, hc⟩ := run_ok_cases function x_lower x_upper x_guess abs_tolerance
      max_iterations x n h
    rw [le_max_iff]
    rcases hc with ⟨-, -, hlen⟩ | ⟨-, -, hl⟩
    · rcases run_cases function x_lower x_upper x_guess abs_tolerance max_iterations with
        ⟨-, hrun⟩ | ⟨-, ⟨-, hrun⟩ | ⟨-, -, hrun⟩ | ⟨-, -, -, hrun⟩ | ⟨-, -, hrun⟩ |
          ⟨-, hg, hrun⟩⟩
      · rw [hrun] at h; simp at h
      · rw [hrun] at h; simp at h; omega
      · rw [hrun] at h; simp at h; omega
      · rw [hrun] at h; simp at h
      · rw [hrun] at h; simp at h; omega
      · obtain ⟨k, t, hk, -, hn, -⟩ := loop_ok_cases function abs_tolerance x n _ _ _ _
          (hrun ▸ h)
        omega
    · obtain ⟨k, t, hk, -, hn, -⟩ := loop_ok_cases function abs_tolerance x n _ _ _ _ hl
      omega

/-- Exact reading of C19 on `x ↦ x² - 2` over `[0, 2]` with guess `1`, tolerance `10⁻¹⁰` and budget
`4`: five evaluator calls, then non-convergence; and the count `3` returned by
the exact hit of `x ↦ x - 1` at the guess lies between `1` and `max(3, 1)`. -/
theorem bounded_work_witness :
    ((DoNewtonWithBisectionFallback (fun x : ℚ => (x ^ 2 - 2, 2 * x)) 0 2 1 (1 / 10 ^ 10)
        4).evals.length : Int) ≤ max 3 (4 + 1) ∧
    ((1 : Int) ≤ 3 ∧ (3 : Int) ≤ max 3 1) :=
  ⟨(bounded_work (fun x : ℚ => (x ^ 2 - 2, 2 * x)) 0 2 1 (1 / 10 ^ 10) 4).1,
   (bounded_work (fun x : ℚ => (x - 1, 1)) 0 2 1 (1 / 2) 1).2.1 1 3
     (by norm_num [DoNewtonWithBisectionFallback])⟩

end Failures

/-! ## Basic facts about the binary64 routine -/

set_option exponentiation.threshold 5000
set_option maxRecDepth 8000

namespace Binary64

theorem b64_takeStep_of_bisection (s : LoopState F64) (h : takesBisection s = true) :
    takeStep s = do_bisection s.x_lower s.x_upper := by
  unfold takesBisection at h
  unfold takeStep
  by_cases h1 : newton_is_slow s = true
  · simp [h1]
  · simp only [h1, Bool.false_or] at h
    simp [h1, h]

theorem b64_takeStep_of_newton (s : LoopState F64) (h : takesBisection s = false) :
    takeStep s = do_newton s.f s.df s.root := by
  unfold takesBisection at h
  rw [Bool.or_eq_false_iff] at h
  unfold takeStep
  simp [h.1, h.2]

theorem b64_iterate_converged (function : F64 → F64 × F64) (abs_tolerance : F64)
    (s : LoopState F64) (x : F64) (h : iterate function abs_tolerance s = .converged x) :
    F64.lt (F64.abs (takeStep s).2) abs_tolerance = true ∧ x = (takeStep s).1 := by
  unfold iterate at h
  simp only at h
  split_ifs at h with h1 h2
  injection h with h
  exact ⟨h1, h.symm⟩

theorem b64_iterate_exactZero (function : F64 → F64 × F64) (abs_tolerance : F64)
    (s : LoopState F64) (x : F64) (h : iterate function abs_tolerance s = .exactZero x) :
    F64.eq (function x).1 zero = true ∧ x = (takeStep s).1 := by
  unfold iterate at h
  simp only at h
  split_ifs at h with h1 h2
  injection h with h
  subst h
  exact ⟨h2, rfl⟩

/-- How a run of the loop that returned a pair ended: after some number of
completed iterations the loop body returned, by the tolerance test or by the
exact-zero test. -/
theorem b64_loop_ok_cases (function : F64 → F64 × F64) (abs_tolerance : F64)
    (max_iterations : Int) (x : F64) (m : Int) (fuel : Nat) :
    ∀ (num_evaluations : Int) (s : LoopState F64) (evals : List F64) (r : Run F64),
      loop function abs_tolerance max_iterations fuel num_evaluations s evals = some r →
      r.result = .ok (x, m) →
      ∃ (k : Nat) (t : LoopState F64), stateAfter function abs_tolerance k s = some t ∧
        (iterate function abs_tolerance t = .converged x ∨
         iterate function abs_tolerance t = .exactZero x) := by
  induction fuel with
  | zero =>
    intro n s evals r h
    simp [loop] at h
  | succ f ih =>
    intro n s evals r h hr
    rw [loop] at h
    split_ifs at h with hc
    · cases hi : iterate function abs_tolerance s with
      | converged y =>
        rw [hi] at h
        simp only [Option.some.injEq] at h
        subst h
        simp only [Except.ok.injEq, Prod.mk.injEq] at hr
        exact ⟨0, s, rfl, Or.inl (by rw [hi, hr.1])⟩
      | exactZero y =>
        rw [hi] at h
        simp only [Option.some.injEq] at h
        subst h
        simp only [Except.ok.injEq, Prod.mk.injEq] at hr
        exact ⟨0, s, rfl, Or.inr (by rw [hi, hr.1])⟩
      | next s1 =>
        rw [hi] at h
        obtain ⟨k, t, hst, hcase⟩ := ih _ s1 _ r h hr
        exact ⟨k + 1, t, by simp only [stateAfter, hi]; exact hst, hcase⟩
    · simp only [Option.some.injEq] at h
      subst h
      simp at hr

/-- A call that returned a pair either returned one of the three points
evaluated before the loop, where the evaluator gave a zero, or it entered the
loop and the loop returned. -/
theorem b64_run_ok_cases (fuel : Nat) (function : F64 → F64 × F64)
    (x_lower x_upper x_guess abs_tolerance : F64) (max_iterations : Int) (r : Run F64)
    (x : F64) (n : Int)
    (h : DoNewtonWithBisectionFallback fuel function x_lower x_upper x_guess abs_tolerance
      max_iterations = some r)
    (hr : r.result = .ok (x, n)) :
    F64.eq (function x).1 zero = true ∨
    loop function abs_tolerance max_iterations fuel 3
      (initState function x_lower x_upper x_guess) [x_lower, x_upper, x_guess] = some r := by
  unfold DoNewtonWithBisectionFallback at h
  split_ifs at h with h1 h2 h3 h4 h5 h6 h7
  all_goals try (simp only [Option.some.injEq] at h; subst h; simp at hr)
  · exact Or.inl (hr.1 ▸ h4)
  · exact Or.inl (hr.1 ▸ h5)
  · exact Or.inl (hr.1 ▸ h7)
  · exact Or.inr h

end Binary64

/-! ## Inputs on which the binary64 routine departs from the exact reading -/

namespace Binary64

theorem b64_stalled_reached :
    iterate adjacentLine (F64.pow2 (-60)) (initState adjacentLine (F64.ofNat 1) onePlusUlp
      (F64.ofNat 1)) = .next stalled := by
  rfl

theorem b64_stalled_fixed : iterate adjacentLine (F64.pow2 (-60)) stalled = .next stalled := by
  rfl

theorem b64_stalled_stateAfter (k : Nat) :
    stateAfter adjacentLine (F64.pow2 (-60)) k stalled = some stalled := by
  induction k with
  | zero => rfl
  | succ k ih => simp only [stateAfter, b64_stalled_fixed]; exact ih

theorem b64_stalled_loop (max_iterations : Int) (fuel : Nat) :
    ∀ (n : Int) (evals : List F64) (r : Run F64),
      loop adjacentLine (F64.pow2 (-60)) max_iterations fuel n stalled evals = some r →
      ∃ a b : F64, r.result = .error (.didNotConverge a b) := by
  induction fuel with
  | zero =>
    intro n evals r h
    simp [loop] at h
  | succ f ih =>
    intro n evals r h
    rw [loop] at h
    split_ifs at h with hc
    · rw [b64_stalled_fixed] at h
      exact ih _ _ r h
    · simp only [Option.some.injEq] at h
      subst h
      exact ⟨_, _, rfl⟩

theorem b64_stalled_forever (fuel : Nat) :
    ∀ (n : Int) (evals : List F64), n ≤ 2147483647 →
      loop adjacentLine (F64.pow2 (-60)) 2147483647 fuel n stalled evals = none := by
  induction fuel with
  | zero =>
    intro n evals _
    rfl
  | succ f ih =>
    intro n evals hn
    rw [loop, if_pos hn, b64_stalled_fixed]
    exact ih _ _ (by unfold wrapIncr; omega)

theorem b64_adjacent_run (fuel : Nat) (max_iterations : Int) :
    DoNewtonWithBisectionFallback fuel adjacentLine (F64.ofNat 1) onePlusUlp (F64.ofNat 1)
        (F64.pow2 (-60)) max_iterations
      = if ¬ (max_iterations > 0) then some ⟨.error .precondition, []⟩
        else loop adjacentLine (F64.pow2 (-60)) max_iterations fuel 3
          (initState adjacentLine (F64.ofNat 1) onePlusUlp (F64.ofNat 1))
          [F64.ofNat 1, onePlusUlp, F64.ofNat 1] := by
  rfl

/-- C4, at a failing input: on the line `adjacentLine` over the adjacent values
`1` and `1 + 2⁻⁵²`, with guess `1` and tolerance `2⁻⁶⁰`, the arguments pass every
check and the endpoint values have strictly opposite sign, yet for no budget
does the call return a result: after the first iteration the loop state does
not change, with `|minus_dx| = 2⁻⁵³` never below the tolerance. With budget `5`
it fails with non-convergence after six evaluations. -/
theorem adjacent_doubles_never_converge :
    (F64.le (F64.ofNat 1) (F64.ofNat 1) && F64.le (F64.ofNat 1) onePlusUlp) = true ∧
    F64.lt zero (F64.pow2 (-60)) = true ∧
    F64.lt (adjacentLine (F64.ofNat 1)).1 zero = true ∧
    F64.lt zero (adjacentLine onePlusUlp).1 = true ∧
    (∀ (fuel : Nat) (max_iterations : Int) (r : Run F64),
      DoNewtonWithBisectionFallback fuel adjacentLine (F64.ofNat 1) onePlusUlp (F64.ofNat 1)
        (F64.pow2 (-60)) max_iterations = some r →
      ∃ e : Failure F64, r.result = .error e) ∧
    DoNewtonWithBisectionFallback 10 adjacentLine (F64.ofNat 1) onePlusUlp (F64.ofNat 1)
        (F64.pow2 (-60)) 5
      = some ⟨.error (.didNotConverge (F64.pow2 (-53)) (F64.pow2 (-52))),
          [F64.ofNat 1, onePlusUlp, F64.ofNat 1, F64.ofNat 1, F64.ofNat 1, F64.ofNat 1]⟩ := by
  refine ⟨rfl, rfl, rfl, rfl, ?_, rfl⟩
  intro fuel max_iterations r h
  rw [b64_adjacent_run] at h
  by_cases hm : max_iterations > 0
  · rw [if_neg (not_not.mpr hm)] at h
    cases fuel with
    | zero => simp [loop] at h
    | succ f =>
      rw [loop] at h
      split_ifs at h with hc
      · rw [b64_stalled_reached] at h
        obtain ⟨a, b, hab⟩ := b64_stalled_loop max_iterations f _ _ r h
        exact ⟨_, hab⟩
      · simp only [Option.some.injEq] at h
        subst h
        exact ⟨_, rfl⟩
  · rw [if_pos hm] at h
    simp only [Option.some.injEq] at h
    subst h
    exact ⟨_, rfl⟩

/-- C19, at a failing input: on the same line, bracket, guess and tolerance,
with `max_iterations = 2147483647`, the largest `int`, the loop condition
`num_evaluations <= max_iterations` holds for every value of the counter, the
loop state does not change, and the loop is still running after any number of
passes; each pass calls the evaluator once. -/
theorem largest_budget_never_ends :
    (∀ fuel : Nat,
      DoNewtonWithBisectionFallback fuel adjacentLine (F64.ofNat 1) onePlusUlp (F64.ofNat 1)
        (F64.pow2 (-60)) 2147483647 = none) ∧
    (∀ k : Nat,
      stateAfter adjacentLine (F64.pow2 (-60)) (k + 1)
        (initState adjacentLine (F64.ofNat 1) onePlusUlp (F64.ofNat 1)) = some stalled) ∧
    wrapIncr 2147483647 = -2147483648 := by
  refine ⟨?_, ?_, by decide⟩
  · intro fuel
    rw [b64_adjacent_run, if_neg (by decide)]
    cases fuel with
    | zero => rfl
    | succ f =>
      rw [loop, if_pos (by decide), b64_stalled_reached]
      exact b64_stalled_forever f _ _ (by decide)
  · intro k
    simp only [stateAfter, b64_stalled_reached]
    exact b64_stalled_stateAfter k

/-- C1, at a failing input: on `x ↦ (2⁻⁶⁰⁰ (x - 1), 2⁻⁶⁰⁰)` over `[0, 4]` with guess
`1`, tolerance `0.5` and budget `10`, the endpoint values `-2⁻⁶⁰⁰` and `3 · 2⁻⁶⁰⁰` are
nonzero with strictly opposite sign and the value at the guess is zero, but
their product underflows to `-0`, the check `f_lower * f_upper < 0` fails and
the call throws after two evaluations instead of returning `(x_guess, 3)`. -/
theorem underflow_rejects_exact_hit (fuel : Nat) :
    DoNewtonWithBisectionFallback fuel tinyLine (F64.ofNat 0) (F64.ofNat 4) (F64.ofNat 1)
        half 10
      = some ⟨.error .precondition, [F64.ofNat 0, F64.ofNat 4]⟩ ∧
    F64.lt (tinyLine (F64.ofNat 0)).1 zero = true ∧
    F64.lt zero (tinyLine (F64.ofNat 4)).1 = true ∧
    F64.eq (tinyLine (F64.ofNat 1)).1 zero = true ∧
    F64.mul (tinyLine (F64.ofNat 0)).1 (tinyLine (F64.ofNat 4)).1 = F64.fin true 0 0 :=
  ⟨rfl, rfl, rfl, rfl, rfl⟩

/-- C12, at a failing input: on `x ↦ (2⁻⁶⁰⁰ (x - 1), 2⁻⁶⁰⁰)` over `[0, 4]` with guess
`2`, tolerance `0.5` and budget `10`, the guess is in the bracket, tolerance and
budget are positive and the endpoint values are nonzero with strictly opposite
sign, yet the call fails with a precondition violation: the product of the
endpoint values underflows to `-0`. -/
theorem underflow_rejects_valid_bracket (fuel : Nat) :
    DoNewtonWithBisectionFallback fuel tinyLine (F64.ofNat 0) (F64.ofNat 4) (F64.ofNat 2)
        half 10
      = some ⟨.error .precondition, [F64.ofNat 0, F64.ofNat 4]⟩ ∧
    (F64.le (F64.ofNat 0) (F64.ofNat 2) && F64.le (F64.ofNat 2) (F64.ofNat 4)) = true ∧
    F64.lt zero half = true ∧ (0 : Int) < 10 ∧
    F64.lt (tinyLine (F64.ofNat 0)).1 zero = true ∧
    F64.lt zero (tinyLine (F64.ofNat 4)).1 = true :=
  ⟨rfl, rfl, rfl, by decide, rfl, rfl⟩

/-- C10, at a failing input: on `stepAtZero` over `[0, 4]` with guess `0.5` and
tolerance `2⁻⁴`, the endpoint values `-1` and `2⁻⁶⁰⁰` have strictly opposite sign;
the first iteration bisects to `2`, where the value is `-2⁻⁶⁰⁰`; the product
`f * f_upper` underflows to `-0`, so `x_upper` is replaced instead of `x_lower`,
and the cached endpoint values of the new bracket `[0, 2]` are `-1` and
`-2⁻⁶⁰⁰`: same sign, neither zero. -/
theorem underflow_breaks_bracket_invariant :
    F64.lt (stepAtZero (F64.ofNat 0)).1 zero = true ∧
    F64.lt zero (stepAtZero (F64.ofNat 4)).1 = true ∧
    stateAfter stepAtZero (F64.pow2 (-4)) 1
        (initState stepAtZero (F64.ofNat 0) (F64.ofNat 4) half)
      = some ⟨F64.ofNat 0, F64.ofNat 2, F64.neg (F64.ofNat 1), F64.neg (F64.pow2 (-600)),
          F64.ofNat 2, F64.neg (F64.ofNat 2), F64.neg (F64.pow2 (-600)), zero⟩ ∧
    F64.lt (F64.neg (F64.ofNat 1)) zero = true ∧
    F64.lt (F64.neg (F64.pow2 (-600))) zero = true ∧
    F64.mul (F64.neg (F64.pow2 (-600))) (stepAtZero (F64.ofNat 4)).1 = F64.fin true 0 0 ∧
    DoNewtonWithBisectionFallback 10 stepAtZero (F64.ofNat 0) (F64.ofNat 4) half
        (F64.pow2 (-4)) 3
      = some ⟨.error (.didNotConverge (F64.ofNat 2) (F64.ofNat 2)),
          [F64.ofNat 0, F64.ofNat 4, half, F64.ofNat 2]⟩ :=
  ⟨rfl, rfl, rfl, rfl, rfl, rfl, rfl⟩

/-- C7, at a failing input: on `recipAboveOne` over `[-1e308, 1e308]` with guess
`0`, tolerance `0.5` and budget `5`, the seed `x_lower - x_upper` overflows to
`-inf`, the step taken is `do_bisection`, whose result is `+inf`, the evaluator
gives `1 / inf = 0` there, and the call returns `(+inf, 3)`: a root outside
`[x_lower, x_upper]`. -/
theorem overflow_returns_infinity :
    DoNewtonWithBisectionFallback 10 recipAboveOne (F64.neg big) big (F64.ofNat 0) half 5
      = some ⟨.ok (F64.inf false, 3), [F64.neg big, big, F64.ofNat 0, F64.inf false]⟩ ∧
    F64.le (F64.inf false) big = false ∧
    (initState recipAboveOne (F64.neg big) big (F64.ofNat 0)).minus_dx = F64.inf true ∧
    do_bisection (F64.neg big) big = (F64.inf false, F64.inf true) :=
  ⟨rfl, rfl, rfl, rfl⟩

/-- C11, at a failing input: on `signAtOne` over `[-1e308, 1e308]` with guess `0`
and tolerance `0.5`, the first completed iteration takes `do_bisection`, whose
result is `+inf`, and replaces `x_upper = 1e308` by `+inf`: the bracket grows
and leaves the original one. -/
theorem overflow_widens_bracket :
    iterate signAtOne half (initState signAtOne (F64.neg big) big (F64.ofNat 0))
      = .next ⟨F64.neg big, F64.inf false, F64.neg (F64.ofNat 1), F64.ofNat 1,
          F64.inf false, F64.inf true, F64.ofNat 1, zero⟩ ∧
    F64.lt big (F64.inf false) = true ∧
    F64.lt (F64.sub big (F64.neg big)) (F64.sub (F64.inf false) (F64.neg big)) = false ∧
    DoNewtonWithBisectionFallback 10 signAtOne (F64.neg big) big (F64.ofNat 0) half 4
      = some ⟨.error (.didNotConverge (F64.inf false) F64.nan),
          [F64.neg big, big, F64.ofNat 0, F64.inf false, F64.nan]⟩ :=
  ⟨rfl, rfl, rfl, rfl⟩

/-- C15, at a failing input: on `x ↦ (x³ - 1, 3x²)` over `[-1e308, 1e308]` with
guess `0`, the loop is entered with `f = -1`, `df = 0` and the seed
`minus_dx = -inf`; `|minus_dx * df|` is NaN, the test `2.0 * abs(f) > NaN` is
false, Newton is not judged slow, and `do_newton` computes `f / df` with
`df == 0`. -/
theorem overflow_divides_by_zero :
    (initState cubeMinusOne (F64.neg big) big (F64.ofNat 0)).f = F64.neg (F64.ofNat 1) ∧
    F64.eq (initState cubeMinusOne (F64.neg big) big (F64.ofNat 0)).df zero = true ∧
    (initState cubeMinusOne (F64.neg big) big (F64.ofNat 0)).minus_dx = F64.inf true ∧
    F64.mul (F64.inf true) zero = F64.nan ∧
    newton_is_slow (initState cubeMinusOne (F64.neg big) big (F64.ofNat 0)) = false ∧
    do_newton (F64.neg (F64.ofNat 1)) zero (F64.ofNat 0) = (F64.inf false, F64.inf true) ∧
    DoNewtonWithBisectionFallback 10 cubeMinusOne (F64.neg big) big (F64.ofNat 0) half 5
      = some ⟨.error (.didNotConverge F64.nan F64.nan),
          [F64.neg big, big, F64.ofNat 0, F64.inf false, F64.nan, F64.nan]⟩ :=
  ⟨rfl, rfl, rfl, rfl, rfl, rfl, rfl⟩

end Binary64

/-! ## What the binary64 routine does by design -/

namespace Binary64

/-- A call that returned a pair returned a point where the evaluator gave a
zero, or the iterate of a step whose recorded `minus_dx` passed the tolerance
test; the step and the iterate are those of `do_bisection` or of `do_newton`. -/
theorem b64_stopping (fuel : Nat) (function : F64 → F64 × F64)
    (x_lower x_upper x_guess abs_tolerance : F64) (max_iterations : Int) (r : Run F64)
    (x : F64) (n : Int)
    (h : DoNewtonWithBisectionFallback fuel function x_lower x_upper x_guess abs_tolerance
      max_iterations = some r)
    (hr : r.result = .ok (x, n)) :
    F64.eq (function x).1 zero = true ∨
    ∃ (k : Nat) (s : LoopState F64),
      stateAfter function abs_tolerance k (initState function x_lower x_upper x_guess) = some s ∧
      F64.lt (F64.abs (takeStep s).2) abs_tolerance = true ∧ x = (takeStep s).1 ∧
      ((takesBisection s = true ∧
          (takeStep s).2 = F64.mul half (F64.sub s.x_lower s.x_upper) ∧
          x = F64.sub s.x_lower (takeStep s).2) ∨
       (takesBisection s = false ∧ (takeStep s).2 = F64.div s.f s.df ∧
          x = F64.sub s.root (takeStep s).2)) := by
  rcases b64_run_ok_cases fuel function x_lower x_upper x_guess abs_tolerance max_iterations
    r x n h hr with h0 | hloop
  · exact Or.inl h0
  · obtain ⟨k, t, hst, hcase⟩ := b64_loop_ok_cases function abs_tolerance max_iterations x n
      fuel _ _ _ r hloop hr
    rcases hcase with hi | hi
    · right
      obtain ⟨hlt, hx⟩ := b64_iterate_converged function abs_tolerance t x hi
      refine ⟨k, t, hst, hlt, hx, ?_⟩
      cases hb : takesBisection t with
      | true =>
        left
        rw [hx, b64_takeStep_of_bisection t hb]
        exact ⟨rfl, rfl, rfl⟩
      | false =>
        right
        rw [hx, b64_takeStep_of_newton t hb]
        exact ⟨rfl, rfl, rfl⟩
    · exact Or.inl (b64_iterate_exactZero function abs_tolerance t x hi).1

/-- The step selection when Newton is not judged slow. -/
theorem b64_newton_escape (s : LoopState F64) (h : newton_is_slow s = false) :
    (outside_bracket s (F64.sub s.root (F64.div s.f s.df)) = true →
      takeStep s = (F64.sub s.x_lower (F64.mul half (F64.sub s.x_lower s.x_upper)),
        F64.mul half (F64.sub s.x_lower s.x_upper))) ∧
    (outside_bracket s (F64.sub s.root (F64.div s.f s.df)) = false →
      takeStep s = (F64.sub s.root (F64.div s.f s.df), F64.div s.f s.df)) := by
  constructor
  · intro hout
    have hb : takesBisection s = true := by
      simp only [takesBisection, h, Bool.false_or, do_newton]
      exact hout
    rw [b64_takeStep_of_bisection s hb]
    rfl
  · intro hin
    have hb : takesBisection s = false := by
      simp only [takesBisection, h, Bool.false_or, do_newton]
      exact hin
    rw [b64_takeStep_of_newton s hb]
    rfl

/-- The recorded step and the new iterate, by kind of step. -/
theorem b64_minus_dx (s : LoopState F64) :
    (takesBisection s = false →
      (takeStep s).2 = F64.div s.f s.df ∧ (takeStep s).1 = F64.sub s.root (takeStep s).2) ∧
    (takesBisection s = true →
      (takeStep s).2 = F64.mul half (F64.sub s.x_lower s.x_upper) ∧
      (takeStep s).1 = F64.sub s.x_lower (takeStep s).2) := by
  constructor
  · intro hb
    rw [b64_takeStep_of_newton s hb]
    exact ⟨rfl, rfl⟩
  · intro hb
    rw [b64_takeStep_of_bisection s hb]
    exact ⟨rfl, rfl⟩

/-- An accepted Newton step: the slowness test and the bracket test were both
false, and the step is the computed quotient. -/
theorem b64_newton_step (s : LoopState F64) (hn : takesBisection s = false) :
    F64.lt (F64.abs (F64.mul s.minus_dx s.df)) (F64.mul two (F64.abs s.f)) = false ∧
    (takeStep s).2 = F64.div s.f s.df ∧
    (takeStep s).1 = F64.sub s.root (F64.div s.f s.df) ∧
    F64.lt (takeStep s).1 s.x_lower = false ∧ F64.lt s.x_upper (takeStep s).1 = false := by
  have hstep := b64_takeStep_of_newton s hn
  unfold takesBisection at hn
  rw [Bool.or_eq_false_iff] at hn
  have hout := hn.2
  unfold outside_bracket at hout
  rw [Bool.or_eq_false_iff] at hout
  rw [hstep]
  exact ⟨hn.1, rfl, rfl, hout.1, hout.2⟩

/-- C6 fails as stated on binary64 values: on `x ↦ (x - (1 - 2⁻⁵²), 3)` over
`[0, 1]` with guess `1`, tolerance `1e-16` and budget `5`, the first iteration
accepts the Newton step `f/df = 2⁻⁵²/3`, below the tolerance, the new iterate
`1 - 2⁻⁵²/3` rounds to `1 - 2⁻⁵³`, and the call returns it: the evaluator is not
zero there, and its distance `2⁻⁵³` from the previous iterate `1` is not below
the tolerance. -/
theorem stopping_criterion_counterexample :
    DoNewtonWithBisectionFallback 10 offByUlp (F64.ofNat 0) (F64.ofNat 1) (F64.ofNat 1)
        (F64.ofQuotient 1 (10 ^ 16)) 5
      = some ⟨.ok (F64.fin false 9007199254740991 1021, 3),
          [F64.ofNat 0, F64.ofNat 1, F64.ofNat 1]⟩ ∧
    F64.eq (offByUlp (F64.fin false 9007199254740991 1021)).1 zero = false ∧
    takesBisection (initState offByUlp (F64.ofNat 0) (F64.ofNat 1) (F64.ofNat 1)) = false ∧
    F64.lt (F64.abs (takeStep (initState offByUlp (F64.ofNat 0) (F64.ofNat 1)
      (F64.ofNat 1))).2) (F64.ofQuotient 1 (10 ^ 16)) = true ∧
    F64.sub (F64.ofNat 1) (F64.fin false 9007199254740991 1021) = F64.pow2 (-53) ∧
    F64.distBelow (F64.fin false 9007199254740991 1021) (F64.ofNat 1)
      (F64.ofQuotient 1 (10 ^ 16)) = false :=
  ⟨rfl, rfl, rfl, rfl, rfl, rfl⟩

/-- C14 fails as stated on binary64 values: on `steepStep` over the adjacent
values `1` and `1 + 2⁻⁵²` with guess `1`, Newton is not judged slow, the
candidate `1 - 2⁻⁵³` is below `x_lower`, and the step taken has
`minus_dx = 0.5 * (x_lower - x_upper) = -2⁻⁵³` but the iterate
`x_lower - minus_dx` rounds to `x_lower = 1`, which is not the midpoint. -/
theorem newton_escape_counterexample :
    newton_is_slow (initState steepStep (F64.ofNat 1) onePlusUlp (F64.ofNat 1)) = false ∧
    F64.lt (do_newton (F64.neg (F64.ofNat 1)) (F64.neg (F64.pow2 53)) (F64.ofNat 1)).1
      (F64.ofNat 1) = true ∧
    takeStep (initState steepStep (F64.ofNat 1) onePlusUlp (F64.ofNat 1))
      = (F64.ofNat 1, F64.neg (F64.pow2 (-53))) ∧
    F64.mul half (F64.sub (F64.ofNat 1) onePlusUlp) = F64.neg (F64.pow2 (-53)) ∧
    F64.lt (F64.ofNat 1) onePlusUlp = true ∧
    F64.isMidpoint (F64.ofNat 1) (F64.ofNat 1) onePlusUlp = false :=
  ⟨rfl, rfl, rfl, rfl, rfl, rfl⟩

/-- C18 fails as stated on binary64 values: on `x ↦ (1e308 (x + 0.7), 1e308)` over
`[-1, 1]` with guess `1`, both `2.0 * abs(f)` and `abs(minus_dx * df)` overflow to
`+inf`, the test `inf > inf` is false, and the first iteration accepts the
Newton step `f/df = 1.7`, more than half of the seed `|minus_dx| = 2`. -/
theorem newton_halving_counterexample :
    takesBisection (initState hugeLine (F64.neg (F64.ofNat 1)) (F64.ofNat 1) (F64.ofNat 1))
      = false ∧
    (initState hugeLine (F64.neg (F64.ofNat 1)) (F64.ofNat 1) (F64.ofNat 1)).minus_dx
      = F64.neg (F64.ofNat 2) ∧
    takeStep (initState hugeLine (F64.neg (F64.ofNat 1)) (F64.ofNat 1) (F64.ofNat 1))
      = (F64.neg (F64.ofQuotient 7 10), F64.ofQuotient 17 10) ∧
    F64.mul two (F64.abs (hugeLine (F64.ofNat 1)).1) = F64.inf false ∧
    F64.abs (F64.mul (F64.neg (F64.ofNat 2)) (hugeLine (F64.ofNat 1)).2) = F64.inf false ∧
    F64.atMostHalf (F64.ofQuotient 17 10) (F64.neg (F64.ofNat 2)) = false :=
  ⟨rfl, rfl, rfl, rfl, rfl, rfl⟩

end Binary64

/-! ## The binary64 routine and the exact reading together -/

section Amended

/-- C5, as amended. On binary64 values: a call that returns `(x, n)` returns a
point where the evaluator gave exactly zero, or the iterate of a step whose
recorded `minus_dx` satisfies `|minus_dx| < abs_tolerance`; nothing is promised
about the distance from `x` to a root. In exact arithmetic: for a continuous
`f` whose only zero in `[x_lower, x_upper]` is `r`, with endpoint values of
strictly opposite sign, a successful call returns `r` itself or the iterate `x`
of its final step; then `r` lies strictly inside the final bracket, `x` lies in
it, `x` is closer than `abs_tolerance` to the previous iterate, and when the
final step is a bisection step `x` is closer than `abs_tolerance` to `r`. -/
theorem accuracy_amended :
    (∀ (fuel : Nat) (function : F64 → F64 × F64)
        (x_lower x_upper x_guess abs_tolerance : F64) (max_iterations : Int) (r : Run F64)
        (x : F64) (n : Int),
      Binary64.DoNewtonWithBisectionFallback fuel function x_lower x_upper x_guess
        abs_tolerance max_iterations = some r →
      r.result = .ok (x, n) →
      F64.eq (function x).1 Binary64.zero = true ∨
      ∃ (k : Nat) (s : LoopState F64),
        Binary64.stateAfter function abs_tolerance k
          (Binary64.initState function x_lower x_upper x_guess) = some s ∧
        x = (Binary64.takeStep s).1 ∧
        F64.lt (F64.abs (Binary64.takeStep s).2) abs_tolerance = true) ∧
    (∀ (f df : ℝ → ℝ) (r x_lower x_upper x_guess abs_tolerance : ℝ) (max_iterations : Int)
        (x : ℝ) (n : Int),
      Continuous f →
      (∀ y : ℝ, x_lower ≤ y → y ≤ x_upper → (f y = 0 ↔ y = r)) →
      OppositeSign (f x_lower) (f x_upper) →
      (DoNewtonWithBisectionFallback (fun y => (f y, df y)) x_lower x_upper x_guess
        abs_tolerance max_iterations).result = .ok (x, n) →
      x = r ∨
      (3 ≤ n ∧ ∃ s : LoopState ℝ,
        stateAfter (fun y => (f y, df y)) abs_tolerance (n - 3).toNat
          (initState (fun y => (f y, df y)) x_lower x_upper x_guess) = some s ∧
        x = (takeStep s).1 ∧ |x - s.root| < abs_tolerance ∧
        (s.x_lower < r ∧ r < s.x_upper) ∧ (s.x_lower ≤ x ∧ x ≤ s.x_upper) ∧
        (takesBisection s = true → |x - r| < abs_tolerance))) := by
  constructor
  · intro fuel function x_lower x_upper x_guess abs_tolerance max_iterations r x n h hr
    rcases Binary64.b64_stopping fuel function x_lower x_upper x_guess abs_tolerance
      max_iterations r x n h hr with h0 | ⟨k, s, hst, hlt, hx, -⟩
    · exact Or.inl h0
    · exact Or.inr ⟨k, s, hst, hx, hlt⟩
  · intro f df r x_lower x_upper x_guess abs_tolerance max_iterations x n hf hroot hs h
    exact returned_root_accuracy f df r x_lower x_upper x_guess abs_tolerance max_iterations
      x n hf hroot hs h

/-- C5 as amended, applied. On binary64 values: `signAtOne` over `[0, 4]` with
guess `0`, tolerance `3` and budget `5` returns `(2, 3)` after one bisection
step. In exact arithmetic: `x ↦ x² - 9` with root `3` over `[0, 4]`, guess `1`
and tolerance `3` returns `2` after one bisection step. -/
theorem accuracy_amended_witness :
    (F64.eq (Binary64.signAtOne (F64.ofNat 2)).1 Binary64.zero = true ∨
      ∃ (k : Nat) (s : LoopState F64),
        Binary64.stateAfter Binary64.signAtOne (F64.ofNat 3) k
          (Binary64.initState Binary64.signAtOne (F64.ofNat 0) (F64.ofNat 4) (F64.ofNat 0))
            = some s ∧
        F64.ofNat 2 = (Binary64.takeStep s).1 ∧
        F64.lt (F64.abs (Binary64.takeStep s).2) (F64.ofNat 3) = true) ∧
    ((2 : ℝ) = 3 ∨
      ((3 : Int) ≤ 3 ∧ ∃ s : LoopState ℝ,
        stateAfter (fun y : ℝ => (y ^ 2 - 9, 2 * y)) 3 ((3 : Int) - 3).toNat
          (initState (fun y : ℝ => (y ^ 2 - 9, 2 * y)) 0 4 1) = some s ∧
        (2 : ℝ) = (takeStep s).1 ∧ |(2 : ℝ) - s.root| < 3 ∧
        (s.x_lower < 3 ∧ 3 < s.x_upper) ∧ (s.x_lower ≤ 2 ∧ 2 ≤ s.x_upper) ∧
        (takesBisection s = true → |(2 : ℝ) - 3| < 3))) :=
  ⟨accuracy_amended.1 10 Binary64.signAtOne (F64.ofNat 0) (F64.ofNat 4) (F64.ofNat 0)
      (F64.ofNat 3) 5
      ⟨.ok (F64.ofNat 2, 3), [F64.ofNat 0, F64.ofNat 4, F64.ofNat 0]⟩ (F64.ofNat 2) 3 rfl rfl,
   accuracy_amended.2 (fun y => y ^ 2 - 9) (fun y => 2 * y) 3 0 4 1 3 3 2 3
    (by fun_prop)
    (by
      intro y h0 _
      constructor
      · intro hy
        have hy2 : y ^ 2 - 9 = 0 := hy
        have h1 : (y - 3) * (y + 3) = 0 := by ring_nf; linarith
        rcases mul_eq_zero.mp h1 with h2 | h2 <;> linarith
      · intro hy
        rw [hy]; norm_num)
    (Or.inl ⟨by norm_num, by norm_num⟩)
    (by
      norm_num [DoNewtonWithBisectionFallback, loop, iterate, takeStep, newton_is_slow,
        do_newton, do_bisection, outside_bracket, updateBracket, initState, abs_lt])⟩

/-- C6, as amended. On binary64 values: a call that returns `(x, n)` returns a
point where the evaluator gave exactly zero, or the iterate `x` of a step taken
from a loop state `s` whose recorded step passed the test
`|minus_dx| < abs_tolerance`, where `minus_dx` is the computed
`0.5 * (x_lower - x_upper)` and `x` the computed `x_lower - minus_dx` for a
bisection step, and `minus_dx` is the computed `f / df` and `x` the computed
`root - minus_dx` for a Newton step; the rounded `x` can differ from the
previous iterate by more than `|minus_dx|`. In exact arithmetic: a successful
call returns a zero of the evaluator, or the iterate of the iteration entered
with `num_evaluations = n`, closer than `abs_tolerance` to the previous iterate,
which is `x_guess` in the first iteration. -/
theorem stopping_criterion_amended :
    (∀ (fuel : Nat) (function : F64 → F64 × F64)
        (x_lower x_upper x_guess abs_tolerance : F64) (max_iterations : Int) (r : Run F64)
        (x : F64) (n : Int),
      Binary64.DoNewtonWithBisectionFallback fuel function x_lower x_upper x_guess
        abs_tolerance max_iterations = some r →
      r.result = .ok (x, n) →
      F64.eq (function x).1 Binary64.zero = true ∨
      ∃ (k : Nat) (s : LoopState F64),
        Binary64.stateAfter function abs_tolerance k
          (Binary64.initState function x_lower x_upper x_guess) = some s ∧
        F64.lt (F64.abs (Binary64.takeStep s).2) abs_tolerance = true ∧
        x = (Binary64.takeStep s).1 ∧
        ((Binary64.takesBisection s = true ∧
            (Binary64.takeStep s).2 = F64.mul Binary64.half (F64.sub s.x_lower s.x_upper) ∧
            x = F64.sub s.x_lower (Binary64.takeStep s).2) ∨
         (Binary64.takesBisection s = false ∧
            (Binary64.takeStep s).2 = F64.div s.f s.df ∧
            x = F64.sub s.root (Binary64.takeStep s).2))) ∧
    (∀ (α : Type) [LinearOrderedField α] (function : α → α × α)
        (x_lower x_upper x_guess abs_tolerance : α) (max_iterations : Int) (x : α) (n : Int),
      (DoNewtonWithBisectionFallback function x_lower x_upper x_guess abs_tolerance
        max_iterations).result = .ok (x, n) →
      (function x).1 = 0 ∨
      (3 ≤ n ∧ ∃ s : LoopState α,
        stateAfter function abs_tolerance (n - 3).toNat
          (initState function x_lower x_upper x_guess) = some s ∧
        x = (takeStep s).1 ∧ |x - s.root| < abs_tolerance)) :=
  ⟨Binary64.b64_stopping,
   fun _ _ function x_lower x_upper x_guess abs_tolerance max_iterations x n h =>
    stopping_criterion function x_lower x_upper x_guess abs_tolerance max_iterations x n h⟩

/-- C6 as amended, applied. On binary64 values: `x ↦ (x - (1 - 2⁻⁵²), 3)` over
`[0, 1]` with guess `1`, tolerance `1e-16` and budget `5` returns `1 - 2⁻⁵³` after
one Newton step. In exact arithmetic: `x ↦ x² - 9` over `[0, 4]` with the interior
guess `1` and tolerance `3` bisects to `2` and returns it. -/
theorem stopping_criterion_amended_witness :
    (F64.eq (Binary64.offByUlp (F64.fin false 9007199254740991 1021)).1 Binary64.zero = true ∨
      ∃ (k : Nat) (s : LoopState F64),
        Binary64.stateAfter Binary64.offByUlp (F64.ofQuotient 1 (10 ^ 16)) k
          (Binary64.initState Binary64.offByUlp (F64.ofNat 0) (F64.ofNat 1) (F64.ofNat 1))
            = some s ∧
        F64.lt (F64.abs (Binary64.takeStep s).2) (F64.ofQuotient 1 (10 ^ 16)) = true ∧
        F64.fin false 9007199254740991 1021 = (Binary64.takeStep s).1 ∧
        ((Binary64.takesBisection s = true ∧
            (Binary64.takeStep s).2 = F64.mul Binary64.half (F64.sub s.x_lower s.x_upper) ∧
            F64.fin false 9007199254740991 1021
              = F64.sub s.x_lower (Binary64.takeStep s).2) ∨
         (Binary64.takesBisection s = false ∧
            (Binary64.takeStep s).2 = F64.div s.f s.df ∧
            F64.fin false 9007199254740991 1021
              = F64.sub s.root (Binary64.takeStep s).2))) ∧
    (((fun x : ℚ => (x ^ 2 - 9, 2 * x)) 2).1 = 0 ∨
      ((3 : Int) ≤ 3 ∧ ∃ s : LoopState ℚ,
        stateAfter (fun x : ℚ => (x ^ 2 - 9, 2 * x)) 3 ((3 : Int) - 3).toNat
          (initState (fun x : ℚ => (x ^ 2 - 9, 2 * x)) 0 4 1) = some s ∧
        (2 : ℚ) = (takeStep s).1 ∧ |(2 : ℚ) - s.root| < 3)) :=
  ⟨stopping_criterion_amended.1 10 Binary64.offByUlp (F64.ofNat 0) (F64.ofNat 1) (F64.ofNat 1)
      (F64.ofQuotient 1 (10 ^ 16)) 5
      ⟨.ok (F64.fin false 9007199254740991 1021, 3), [F64.ofNat 0, F64.ofNat 1, F64.ofNat 1]⟩
      (F64.fin false 9007199254740991 1021) 3 rfl rfl,
   stopping_criterion_amended.2 ℚ (fun x : ℚ => (x ^ 2 - 9, 2 * x)) 0 4 1 3 3 2 3
    (by
      norm_num [DoNewtonWithBisectionFallback, loop, iterate, takeStep, newton_is_slow,
        do_newton, do_bisection, outside_bracket, updateBracket, initState, abs_lt])⟩

/-- C14, as amended. On binary64 values: in an iteration where Newton is not
judged slow, if the computed candidate `root - f / df` is below `x_lower` or
above `x_upper`, the step taken is that of `do_bisection`:
`minus_dx = 0.5 * (x_lower - x_upper)` and the iterate `x_lower - minus_dx`, both
as computed; otherwise the candidate is taken with `minus_dx = f / df`. In exact
arithmetic the bisection iterate is the midpoint `(x_lower + x_upper) / 2`. -/
theorem newton_escape_amended :
    (∀ s : LoopState F64, Binary64.newton_is_slow s = false →
      (Binary64.outside_bracket s (F64.sub s.root (F64.div s.f s.df)) = true →
        Binary64.takeStep s
          = (F64.sub s.x_lower (F64.mul Binary64.half (F64.sub s.x_lower s.x_upper)),
              F64.mul Binary64.half (F64.sub s.x_lower s.x_upper))) ∧
      (Binary64.outside_bracket s (F64.sub s.root (F64.div s.f s.df)) = false →
        Binary64.takeStep s = (F64.sub s.root (F64.div s.f s.df), F64.div s.f s.df))) ∧
    (∀ (α : Type) [LinearOrderedField α] (s : LoopState α), newton_is_slow s = false →
      ((s.root - s.f / s.df < s.x_lower ∨ s.root - s.f / s.df > s.x_upper) →
        takeStep s = do_bisection s.x_lower s.x_upper ∧
        takeStep s = ((s.x_lower + s.x_upper) / 2, (1 / 2) * (s.x_lower - s.x_upper))) ∧
      ((s.x_lower ≤ s.root - s.f / s.df ∧ s.root - s.f / s.df ≤ s.x_upper) →
        takeStep s = (s.root - s.f / s.df, s.f / s.df))) :=
  ⟨Binary64.b64_newton_escape, fun _ _ s h => newton_escape_fallback s h⟩

/-- C14 as amended, applied. On binary64 values: from the first loop state of
`steepStep` over `[1, 1 + 2⁻⁵²]` the candidate leaves the bracket and the step of
`do_bisection` is taken. In exact arithmetic: over `[0, 4]` with the seed
`minus_dx = -4`, from the iterate `1/10` with `f = df = 1` the midpoint `2` is
taken. -/
theorem newton_escape_amended_witness :
    Binary64.takeStep
        (Binary64.initState Binary64.steepStep (F64.ofNat 1) Binary64.onePlusUlp (F64.ofNat 1))
      = (F64.sub (F64.ofNat 1)
          (F64.mul Binary64.half (F64.sub (F64.ofNat 1) Binary64.onePlusUlp)),
         F64.mul Binary64.half (F64.sub (F64.ofNat 1) Binary64.onePlusUlp)) ∧
    takeStep (⟨0, 4, -1, 1, 1 / 10, -4, 1, 1⟩ : LoopState ℚ)
      = (((0 : ℚ) + 4) / 2, (1 / 2) * ((0 : ℚ) - 4)) :=
  ⟨((newton_escape_amended.1
      (Binary64.initState Binary64.steepStep (F64.ofNat 1) Binary64.onePlusUlp (F64.ofNat 1))
      rfl).1 rfl),
   ((newton_escape_amended.2 ℚ (⟨0, 4, -1, 1, 1 / 10, -4, 1, 1⟩ : LoopState ℚ)
      (by norm_num [newton_is_slow, abs_div, abs_mul, abs_neg, Nat.abs_ofNat, abs_one])).1
      (Or.inl (by norm_num))).2⟩

/-- C16, as amended. On binary64 values: after an accepted Newton step
`minus_dx` is the computed `f / df` and the new iterate the computed
`root - minus_dx`; after a bisection step `minus_dx` is the computed
`0.5 * (x_lower - x_upper)` and the new iterate the computed
`x_lower - minus_dx`. In exact arithmetic, in a call with `x_guess` in the
bracket: a Newton step records `x_prev - x_next`; a bisection step records
`x_lower - x_next = (x_lower - x_upper)/2`, which is `x_prev - x_next` when the
previous iterate is `x_lower` and `-(x_prev - x_next)` when it is `x_upper`;
`|x_prev - x_next| ≤ |minus_dx|`, with equality after the first iteration. -/
theorem minus_dx_amended :
    (∀ s : LoopState F64,
      (Binary64.takesBisection s = false →
        (Binary64.takeStep s).2 = F64.div s.f s.df ∧
        (Binary64.takeStep s).1 = F64.sub s.root (Binary64.takeStep s).2) ∧
      (Binary64.takesBisection s = true →
        (Binary64.takeStep s).2 = F64.mul Binary64.half (F64.sub s.x_lower s.x_upper) ∧
        (Binary64.takeStep s).1 = F64.sub s.x_lower (Binary64.takeStep s).2)) ∧
    (∀ (α : Type) [LinearOrderedField α] (function : α → α × α)
        (x_lower x_upper x_guess abs_tolerance : α) (k : Nat) (s : LoopState α),
      x_lower ≤ x_guess ∧ x_guess ≤ x_upper →
      stateAfter function abs_tolerance k (initState function x_lower x_upper x_guess)
        = some s →
      (takesBisection s = false → (takeStep s).2 = s.root - (takeStep s).1) ∧
      (takesBisection s = true →
        (takeStep s).2 = s.x_lower - (takeStep s).1 ∧
        (takeStep s).2 = (s.x_lower - s.x_upper) / 2 ∧
        (s.root = s.x_lower → (takeStep s).2 = s.root - (takeStep s).1) ∧
        (s.root = s.x_upper → (takeStep s).2 = -(s.root - (takeStep s).1))) ∧
      |s.root - (takeStep s).1| ≤ |(takeStep s).2| ∧
      (0 < k → (s.root = s.x_lower ∨ s.root = s.x_upper) ∧
        |s.root - (takeStep s).1| = |(takeStep s).2|)) :=
  ⟨Binary64.b64_minus_dx,
   fun _ _ function x_lower x_upper x_guess abs_tolerance k s hb hs =>
    minus_dx_meaning function x_lower x_upper x_guess abs_tolerance hb k s hs⟩

/-- C16 as amended, applied. On binary64 values: the bisection step from the
state `stalled` records `0.5 * (x_lower - x_upper)`. In exact arithmetic:
`x ↦ x² - 2` over `[0, 2]` with guess `1`, second iteration, where the previous
iterate `3/2` is the upper end. -/
theorem minus_dx_amended_witness :
    ((Binary64.takeStep Binary64.stalled).2
        = F64.mul Binary64.half
            (F64.sub Binary64.stalled.x_lower Binary64.stalled.x_upper) ∧
      (Binary64.takeStep Binary64.stalled).1
        = F64.sub Binary64.stalled.x_lower (Binary64.takeStep Binary64.stalled).2) ∧
    (((3 / 2 : ℚ) = 0 ∨ (3 / 2 : ℚ) = 3 / 2) ∧
      |(3 / 2 : ℚ) - (takeStep (⟨0, 3 / 2, -2, 1 / 4, 3 / 2, -1 / 2, 1 / 4, 3⟩ : LoopState ℚ)).1|
        = |(takeStep (⟨0, 3 / 2, -2, 1 / 4, 3 / 2, -1 / 2, 1 / 4, 3⟩ : LoopState ℚ)).2|) :=
  ⟨(minus_dx_amended.1 Binary64.stalled).2 rfl,
   (minus_dx_amended.2 ℚ (fun x : ℚ => (x ^ 2 - 2, 2 * x)) 0 2 1 (1 / 10 ^ 10) 1
      ⟨0, 3 / 2, -2, 1 / 4, 3 / 2, -1 / 2, 1 / 4, 3⟩ (by norm_num)
      (by
        norm_num [stateAfter, iterate, takeStep, newton_is_slow, do_newton, do_bisection,
          outside_bracket, updateBracket, initState, abs_div, abs_mul, abs_neg,
          Nat.abs_ofNat, abs_one])).2.2.2 (by norm_num)⟩

/-- C18, as amended. On binary64 values: in an iteration that accepts the Newton
step, the test `2.0 * abs(f) > abs(minus_dx * df)` was false as computed, the new
`minus_dx` is the computed `f / df`, and the new iterate, the computed
`root - f / df`, is neither below `x_lower` nor above `x_upper`. In exact
arithmetic, in a call that enters the loop with `x_guess` in the bracket, the new
`|minus_dx| = |f/df|` is at most half of the `|minus_dx|` held at the start of the
iteration, which in the first iteration is the width `x_upper - x_lower`. -/
theorem newton_step_amended :
    (∀ s : LoopState F64, Binary64.takesBisection s = false →
      F64.lt (F64.abs (F64.mul s.minus_dx s.df)) (F64.mul Binary64.two (F64.abs s.f)) = false ∧
      (Binary64.takeStep s).2 = F64.div s.f s.df ∧
      (Binary64.takeStep s).1 = F64.sub s.root (F64.div s.f s.df) ∧
      F64.lt (Binary64.takeStep s).1 s.x_lower = false ∧
      F64.lt s.x_upper (Binary64.takeStep s).1 = false) ∧
    (∀ (α : Type) [LinearOrderedField α] (function : α → α × α)
        (x_lower x_upper x_guess abs_tolerance : α) (k : Nat) (s : LoopState α),
      x_lower ≤ x_guess ∧ x_guess ≤ x_upper →
      (function x_guess).1 ≠ 0 →
      stateAfter function abs_tolerance k (initState function x_lower x_upper x_guess)
        = some s →
      takesBisection s = false →
      (takeStep s).2 = s.f / s.df ∧ |(takeStep s).2| ≤ |s.minus_dx| / 2 ∧
      (k = 0 → |s.minus_dx| = x_upper - x_lower)) :=
  ⟨Binary64.b64_newton_step,
   fun _ _ function x_lower x_upper x_guess abs_tolerance k s hb hg hs hn =>
    accepted_newton_halves_step function x_lower x_upper x_guess abs_tolerance hb hg k s hs hn⟩

/-- C18 as amended, applied. On binary64 values: the first loop state of
`x ↦ (x - (1 - 2⁻⁵²), 3)` over `[0, 1]` with guess `1`, where the Newton step is
accepted. In exact arithmetic: `x ↦ x² - 2` over `[0, 2]` with guess `1`, where
the first iteration accepts the Newton step `-1/2`. -/
theorem newton_step_amended_witness :
    ((Binary64.takeStep
        (Binary64.initState Binary64.offByUlp (F64.ofNat 0) (F64.ofNat 1) (F64.ofNat 1))).2
      = F64.div
          (Binary64.initState Binary64.offByUlp (F64.ofNat 0) (F64.ofNat 1) (F64.ofNat 1)).f
          (Binary64.initState Binary64.offByUlp (F64.ofNat 0) (F64.ofNat 1) (F64.ofNat 1)).df) ∧
    |(takeStep (initState (fun x : ℚ => (x ^ 2 - 2, 2 * x)) 0 2 1)).2|
      ≤ |(initState (fun x : ℚ => (x ^ 2 - 2, 2 * x)) 0 2 1).minus_dx| / 2 :=
  ⟨(newton_step_amended.1
      (Binary64.initState Binary64.offByUlp (F64.ofNat 0) (F64.ofNat 1) (F64.ofNat 1))
      rfl).2.1,
   (newton_step_amended.2 ℚ (fun x : ℚ => (x ^ 2 - 2, 2 * x)) 0 2 1 (1 / 10 ^ 10) 0 _
      (by norm_num) (by norm_num) rfl
      (by norm_num [takesBisection, newton_is_slow, do_newton, outside_bracket, initState,
        abs_div, abs_mul, abs_neg, Nat.abs_ofNat, abs_one])).2.1⟩

end Amended

end NewtonWithBisection
